import Mathlib

set_option maxHeartbeats 1000000

/-!
Shallow embedding of parts of the pyqtgraph repository:
`pyqtgraph/graphicsItems/NonUniformImage.py` and
`pyqtgraph/parametertree/interactive.py`.

Modelling conventions:
* Python floating point numbers are modelled as rationals; a float that may
  be NaN is modelled as `Option ℚ`, with `none` standing for NaN.
* Python dicts with string keys are modelled as association lists with
  distinct keys, preserving Python's insertion-order update semantics.
* Qt painting is modelled by recording the draw calls that would be issued.
-/

/-- Model of a Python value as used by the parameter-tree code.
`unset` is the `RunOpts.PARAM_UNSET` sentinel class object. -/
inductive PyVal where
  | int : ℤ → PyVal
  | str : String → PyVal
  | bool : Bool → PyVal
  | float : ℚ → PyVal
  | pynone : PyVal
  | dict : List (String × PyVal) → PyVal
  | unset : PyVal

/-- Python `type(v).__name__` for the modelled values.  `type(PARAM_UNSET)`
is `type` because `PARAM_UNSET` is itself a class. -/
def PyVal.typeName : PyVal → String
  | .int _ => "int"
  | .str _ => "str"
  | .bool _ => "bool"
  | .float _ => "float"
  | .pynone => "NoneType"
  | .dict _ => "dict"
  | .unset => "type"

/-- `d[k]` lookup in a Python dict (first binding wins; bindings are unique). -/
def dget {α : Type} : List (String × α) → String → Option α
  | [], _ => none
  | (k0, v0) :: rest, k => if k = k0 then some v0 else dget rest k

/-- `d[k] = v` assignment in a Python dict: replaces the value in place if the
key is present (keeping its position), otherwise appends the binding. -/
def dset {α : Type} : List (String × α) → String → α → List (String × α)
  | [], k, v => [(k, v)]
  | (k0, v0) :: rest, k, v =>
    if k = k0 then (k0, v) :: rest else (k0, v0) :: dset rest k v

/-- Python `d.update(e)`: assign every binding of `e` into `d`, in order. -/
def dupd {α : Type} (d e : List (String × α)) : List (String × α) :=
  e.foldl (fun acc kv => dset acc kv.1 kv.2) d

/-- Python `d.setdefault(k, v)`. -/
def dsetdefault {α : Type} (d : List (String × α)) (k : String) (v : α) :
    List (String × α) :=
  match dget d k with
  | some _ => d
  | none => d ++ [(k, v)]

/-- The keys of a modelled dict. -/
def dkeys {α : Type} (d : List (String × α)) : List String :=
  d.map Prod.fst

theorem dget_eq_none_of_not_mem {α : Type} {d : List (String × α)} {k : String}
    (h : k ∉ dkeys d) : dget d k = none := by
  induction d with
  | nil => rfl
  | cons hd tl ih =>
    simp only [dkeys, List.map_cons, List.mem_cons] at h
    push_neg at h
    simp only [dget, if_neg h.1]
    exact ih (by simpa [dkeys] using h.2)

theorem dget_dset_self {α : Type} (d : List (String × α)) (k : String) (v : α) :
    dget (dset d k v) k = some v := by
  induction d with
  | nil => simp [dget, dset]
  | cons hd tl ih =>
    by_cases h : k = hd.1
    · simp [dget, dset, h]
    · simp [dget, dset, h, ih]

theorem dget_dset_ne {α : Type} (d : List (String × α)) (k k' : String) (v : α)
    (h : k' ≠ k) : dget (dset d k v) k' = dget d k' := by
  induction d with
  | nil => simp [dget, dset, h]
  | cons hd tl ih =>
    by_cases hk : k = hd.1
    · have h2 : k' ≠ hd.1 := by
        rw [← hk]
        exact h
      simp [dget, dset, hk, h2]
    · by_cases hk' : k' = hd.1 <;> simp [dget, dset, hk, hk', ih]

theorem dkeys_dset {α : Type} (d : List (String × α)) (k : String) (v : α) :
    dkeys (dset d k v) = if k ∈ dkeys d then dkeys d else dkeys d ++ [k] := by
  induction d with
  | nil => simp [dkeys, dset]
  | cons hd tl ih =>
    by_cases h : k = hd.1
    · simp [dkeys, dset, h]
    · simp only [dkeys, dset, if_neg h, List.map_cons]
      by_cases hm : k ∈ dkeys tl
      · simp [dkeys] at hm ih ⊢
        simp [ih, hm, h]
      · simp [dkeys] at hm ih ⊢
        simp [ih, hm, h]

theorem dget_dupd {α : Type} (d e : List (String × α)) (k : String)
    (he : (dkeys e).Nodup) :
    dget (dupd d e) k = (dget e k).or (dget d k) := by
  induction e generalizing d with
  | nil => simp [dupd, dget]
  | cons hd tl ih =>
    simp only [dkeys, List.map_cons, List.nodup_cons] at he
    have step : dupd d (hd :: tl) = dupd (dset d hd.1 hd.2) tl := by
      simp [dupd]
    rw [step, ih _ (by simpa [dkeys] using he.2)]
    by_cases h : k = hd.1
    · subst h
      have h1 : dget tl hd.1 = none :=
        dget_eq_none_of_not_mem (by simpa [dkeys] using he.1)
      simp [dget, h1, dget_dset_self]
    · simp [dget, h, dget_dset_ne _ _ _ _ h]

theorem dget_append {α : Type} (d e : List (String × α)) (k : String) :
    dget (d ++ e) k = (dget d k).or (dget e k) := by
  induction d with
  | nil => simp [dget]
  | cons hd tl ih =>
    by_cases h : k = hd.1 <;> simp [dget, h, ih]

theorem dget_dsetdefault_self {α : Type} (d : List (String × α)) (k : String)
    (v : α) : dget (dsetdefault d k v) k = some ((dget d k).getD v) := by
  unfold dsetdefault
  cases h : dget d k with
  | some w => simp [h]
  | none => simp [dget_append, h, dget]

theorem dget_dsetdefault_ne {α : Type} (d : List (String × α)) (k k' : String)
    (v : α) (h : k' ≠ k) : dget (dsetdefault d k v) k' = dget d k' := by
  unfold dsetdefault
  cases hg : dget d k with
  | some w => rfl
  | none => simp [dget_append, dget, h]

/-! ## NonUniformImage (`pyqtgraph/graphicsItems/NonUniformImage.py`) -/

/-- Python exceptions raised by the modelled code. -/
inductive PyErr where
  | valueError : String → PyErr
  | indexError : String → PyErr
deriving DecidableEq

/-- Modelled from the spec: a Qt pen as produced by `mkPen` from
`pyqtgraph/functions.py` (not included in the sources).  Only the
construction argument and the cosmetic flag are relevant here. -/
structure QPen where
  source : PyVal
  cosmetic : Bool

/-- Modelled from the spec: `mkPen` constructs a pen from a color-like
argument; freshly constructed pens are not cosmetic. -/
def mkPen (v : PyVal) : QPen :=
  { source := v, cosmetic := false }

def QPen.setCosmetic (p : QPen) (b : Bool) : QPen :=
  { p with cosmetic := b }

/-- A numpy `ndarray` of element type `α`: a shape together with the
row-major (C-order) flattened data. -/
structure NDArr (α : Type) where
  shape : List ℕ
  data : List α

def NDArr.ndim {α : Type} (a : NDArr α) : ℕ := a.shape.length

/-- numpy `size`: the product of the dimensions. -/
def NDArr.size {α : Type} (a : NDArr α) : ℕ := a.shape.prod

/-- An `NDArr` whose flattened data has as many entries as its shape
demands. -/
def NDArr.wf {α : Type} (a : NDArr α) : Prop := a.data.length = a.shape.prod

/-- `not np.any(np.diff(v) < 0)`: adjacent values never decrease. -/
def monotonicOk (l : List ℚ) : Bool :=
  (l.zip l.tail).all fun p => decide (p.1 ≤ p.2)

/-- The state of a `NonUniformImage` object.  The Qt-only attributes
(`cmap`, the `QPicture` contents) are not modelled; `picture` only records
whether a cached picture exists. -/
structure NonUniformImage where
  data : NDArr ℚ × NDArr ℚ × NDArr (Option ℚ)
  dataBounds : (ℚ × ℚ) × (ℚ × ℚ)
  edgecolors : Option QPen
  antialiasing : PyVal
  levels : Option (ℚ × ℚ)
  lut : Option (List ℤ)
  picture : Option Unit

/-- `NonUniformImage.__init__(x, y, z, border=None, **kwargs)`.  Mirrors the
source order: the 1-d check, then the `edgecolors`/`antialiasing` keyword
handling (which rebinds `border` to `kwargs.get("edgecolors")`), then the
monotonicity and shape checks, then the attribute assignments, where
evaluating `x[0]`/`x[-1]`/`y[0]`/`y[-1]` on an empty array raises
`IndexError`. -/
def NonUniformImage.init (x y : NDArr ℚ) (z : NDArr (Option ℚ))
    (border : Option PyVal) (kwargs : List (String × PyVal)) :
    Except PyErr NonUniformImage :=
  if x.ndim ≠ 1 ∨ y.ndim ≠ 1 then
    .error (.valueError "x and y must be 1-d arrays.")
  else
    let border := dget kwargs "edgecolors"
    let edgecolors : Option QPen :=
      match border with
      | none => none
      | some e => some ((mkPen e).setCosmetic true)
    let antialiasing := (dget kwargs "antialiasing").getD (PyVal.bool false)
    if ¬ (monotonicOk x.data ∧ monotonicOk y.data) then
      .error (.valueError "The values in x and y must be monotonically increasing.")
    else if z.ndim ≠ 2 ∨ z.shape ≠ [x.size, y.size] then
      .error (.valueError "The length of x and y must match the shape of z.")
    else
      match x.data, y.data with
      | [], _ =>
        .error (.indexError "index 0 is out of bounds for axis 0 with size 0")
      | _ :: _, [] =>
        .error (.indexError "index 0 is out of bounds for axis 0 with size 0")
      | x0 :: xs, y0 :: ys =>
        .ok { data := (x, y, z),
              dataBounds := ((x0, xs.getLastD x0), (y0, ys.getLastD y0)),
              edgecolors := edgecolors,
              antialiasing := antialiasing,
              levels := none,
              lut := none,
              picture := none }

/-- `z[np.isfinite(z)]`: the finite entries of the flattened data, in order. -/
def finiteVals (z : List (Option ℚ)) : List ℚ :=
  z.filterMap id

/-- `NonUniformImage.getLevels`: returns cached levels, otherwise computes
`(z.min(), z.max())` over the finite entries and caches the pair.  numpy
raises on an empty reduction. -/
def NonUniformImage.getLevels (s : NonUniformImage) :
    Except PyErr ((ℚ × ℚ) × NonUniformImage) :=
  match s.levels with
  | some lv => .ok (lv, s)
  | none =>
    match finiteVals s.data.2.2.data with
    | [] => .error (.valueError "zero-size array to reduction operation minimum which has no identity")
    | v :: vs =>
      let mn := vs.foldl min v
      let mx := vs.foldl max v
      .ok ((mn, mx), { s with levels := some (mn, mx) })

/-- `NonUniformImage.setLevels`. -/
def NonUniformImage.setLevels (s : NonUniformImage) (levels : Option (ℚ × ℚ)) :
    NonUniformImage :=
  { s with levels := levels, picture := none }

/-- `np.clip` on an integer value. -/
def clipZ (v lo hi : ℤ) : ℤ := max lo (min v hi)

/-- Python `int(q)`: truncation toward zero. -/
def pyTrunc (q : ℚ) : ℤ := if 0 ≤ q then ⌊q⌋ else ⌈q⌉

/-- Modelled from the spec: `fn.rescaleData(data, scale, offset, dtype=int,
clip=(lo, hi))` from `pyqtgraph/functions.py` (not included in the sources):
the data is shifted by `offset`, scaled, converted to int and clipped to the
given bounds. -/
def rescaleData (v scale offset : ℚ) (lo hi : ℤ) : ℤ :=
  clipZ (pyTrunc ((v - offset) * scale)) lo hi

/-- The quantized color index assigned by `generatePicture` to one cell value
(`none` = NaN).  Mirrors lines 186-195 of `NonUniformImage.py`: the levels
range (1 when zero), `scale = len(lut) / rng`, `rescaleData` with clip bounds
`(0, len(lut)-1)`, and the final overwrite of NaN positions with the invalid
index `len(lut)`. -/
def cellColorIndex (L : ℕ) (mn mx : ℚ) (z : Option ℚ) : ℕ :=
  match z with
  | none => L
  | some v =>
    let rng : ℚ := if mx - mn = 0 then 1 else mx - mn
    let scale : ℚ := (L : ℚ) / rng
    (rescaleData v scale mn 0 ((L : ℤ) - 1)).toNat

/-- `np.pad(v, 1, mode="edge")` on a 1-d array. -/
def pad : List ℚ → List ℚ
  | [] => []
  | a :: rest => a :: (a :: rest) ++ [rest.getLastD a]

/-- `(v[:-1] + v[1:]) / 2`: midpoints of adjacent entries. -/
def mids (l : List ℚ) : List ℚ :=
  List.zipWith (fun a b => (a + b) / 2) l l.tail

/-- The cell boundary positions derived in `generatePicture`:
`x = np.pad(x, 1, mode="edge"); x = (x[:-1] + x[1:]) / 2`. -/
def bounds (l : List ℚ) : List ℚ := mids (pad l)

/-- The rectangle `(X, Y, W, H)` of the cell with flattened index `k`
(row-major over the `(len(x), len(y))` grid), as assembled from the
`meshgrid` of `x[:-1]`, `y[:-1]`, `np.diff(x)` and `np.diff(y)` over the
boundary positions. -/
def rectOf (x y : List ℚ) (k : ℕ) : ℚ × ℚ × ℚ × ℚ :=
  let m := y.length
  let i := k / m
  let j := k % m
  let bx := bounds x
  let yb := bounds y
  (bx.getD i 0, yb.getD j 0,
   bx.getD (i + 1) 0 - bx.getD i 0, yb.getD (j + 1) 0 - yb.getD j 0)

/-- The color index of the cell with flattened index `k`. -/
def colorIdxAt (L : ℕ) (mn mx : ℚ) (zflat : List (Option ℚ)) (k : ℕ) : ℕ :=
  cellColorIndex L mn mx (zflat.getD k none)

/-- One `painter.drawRects` batch issued by `generatePicture`: the quantized
color index, the brush `lut[coloridx]`, and the flattened cell indices and
rectangles drawn in this batch. -/
structure DrawCall where
  coloridx : ℕ
  brush : ℤ
  indices : List ℕ
  rects : List (ℚ × ℚ × ℚ × ℚ)

/-- The sequence of `drawRects` batches issued by `generatePicture` (lines
197-228): `np.unique` lists the occurring color indices in increasing order,
the batch with the invalid index `len(lut)` is skipped, and each remaining
index is drawn as one batch whose members are the cells holding that index
(grouped via `np.argsort` of the flattened quantized image). -/
def generatePictureCalls (x y : List ℚ) (zflat : List (Option ℚ))
    (lut : List ℤ) (mn mx : ℚ) : List DrawCall :=
  let L := lut.length
  let N := x.length * y.length
  let colors := (List.range N).map (colorIdxAt L mn mx zflat)
  let uniq := (List.range (L + 1)).filter (fun c => decide (c ∈ colors))
  (uniq.filter (fun c => c != L)).map (fun c =>
    let idxs := (List.range N).filter (fun k => colorIdxAt L mn mx zflat k == c)
    { coloridx := c, brush := lut.getD c 0, indices := idxs,
      rects := idxs.map (rectOf x y) })

/-! ## InteractiveFunction (`pyqtgraph/parametertree/interactive.py`) -/

/-- The state of an `InteractiveFunction`.  `function` is the wrapped
callable, which receives its keyword arguments as a dict; `closures` map
names to zero-argument callables evaluated at call time; `parameters` are
the names of the hooked-up parameters.  `callLog` is ghost instrumentation
recording each keyword dict the wrapped function is invoked with. -/
structure InteractiveFunction where
  function : List (String × PyVal) → PyVal
  extra : List (String × PyVal)
  closures : List (String × (Unit → PyVal))
  parameters : List String
  parameterCache : List (String × PyVal)
  _disconnected : Bool
  parametersNeedRunKwargs : Bool
  callLog : List (List (String × PyVal))

/-- The closure keywords, freshly evaluated (`runKwargs[kk] = vv()`). -/
def InteractiveFunction.closureKwargs (s : InteractiveFunction) :
    List (String × PyVal) :=
  s.closures.map fun p => (p.1, p.2 ())

/-- The keyword dict built by `__call__`: a copy of `extra`, updated with
`parameterCache`, then with the evaluated closures, then with the call-time
keywords. -/
def InteractiveFunction.runKwargsOf (s : InteractiveFunction)
    (kwargs : List (String × PyVal)) : List (String × PyVal) :=
  dupd (dupd (dupd s.extra s.parameterCache) s.closureKwargs) kwargs

/-- `InteractiveFunction._updateParametersFromRunKwargs`: temporarily
disconnects the runnable, calls `setValue` on every hooked parameter named
in `kwargs` (which, runs being disconnected, only refreshes
`parameterCache` through `updateCachedParameterValues`), restores the
disconnected flag, and finally overwrites the `extra` values whose keys
appear in `kwargs`. -/
def InteractiveFunction.updateParametersFromRunKwargs
    (s : InteractiveFunction) (kwargs : List (String × PyVal)) :
    InteractiveFunction :=
  let cache := s.parameters.foldl
    (fun c nm =>
      match dget kwargs nm with
      | some v => dset c nm v
      | none => c)
    s.parameterCache
  let extra := s.extra.map fun kv =>
    match dget kwargs kv.1 with
    | some v => (kv.1, v)
    | none => kv
  { s with parameterCache := cache, extra := extra }

/-- `InteractiveFunction.__call__`. -/
def InteractiveFunction.call (s : InteractiveFunction)
    (kwargs : List (String × PyVal)) : PyVal × InteractiveFunction :=
  let s1 := if s.parametersNeedRunKwargs
    then s.updateParametersFromRunKwargs kwargs else s
  let rk := s1.runKwargsOf kwargs
  (s1.function rk, { s1 with callLog := s1.callLog ++ [rk] })

/-- `InteractiveFunction.runFromChangedOrChanging(param, value)`. -/
def InteractiveFunction.runFromChangedOrChanging (s : InteractiveFunction)
    (name : String) (value : PyVal) : Option PyVal × InteractiveFunction :=
  if s._disconnected then (none, s)
  else
    let oldPropagate := s.parametersNeedRunKwargs
    let r := InteractiveFunction.call
      { s with parametersNeedRunKwargs := false } (dset [] name value)
    (some r.1, { r.2 with parametersNeedRunKwargs := oldPropagate })

/-- `InteractiveFunction.runFromAction(**kwargs)`. -/
def InteractiveFunction.runFromAction (s : InteractiveFunction)
    (kwargs : List (String × PyVal)) : Option PyVal × InteractiveFunction :=
  if s._disconnected then (none, s)
  else
    let r := s.call kwargs
    (some r.1, r.2)

/-- `InteractiveFunction.disconnect`: returns the previous flag. -/
def InteractiveFunction.disconnect (s : InteractiveFunction) :
    Bool × InteractiveFunction :=
  (s._disconnected, { s with _disconnected := true })

/-- `InteractiveFunction.setDisconnected`: returns the previous flag. -/
def InteractiveFunction.setDisconnected (s : InteractiveFunction) (b : Bool) :
    Bool × InteractiveFunction :=
  (s._disconnected, { s with _disconnected := b })

/-- `InteractiveFunction.reconnect`: returns the previous flag. -/
def InteractiveFunction.reconnect (s : InteractiveFunction) :
    Bool × InteractiveFunction :=
  (s._disconnected, { s with _disconnected := false })

/-- `InteractiveFunction.updateCachedParameterValues` (connected to
`sigValueChanged` of every hooked parameter). -/
def InteractiveFunction.updateCachedParameterValues (s : InteractiveFunction)
    (name : String) (value : PyVal) : InteractiveFunction :=
  { s with parameterCache := dset s.parameterCache name value }

/-- `InteractiveFunction.hookupParameters` over model parameters given as
(name, current value) pairs. -/
def InteractiveFunction.hookupParameters (s : InteractiveFunction)
    (params : List (String × PyVal)) (clearOld : Bool) : InteractiveFunction :=
  let s1 := if clearOld then { s with parameters := [], parameterCache := [] }
    else s
  params.foldl
    (fun t p =>
      { t with parameters := t.parameters ++ [p.1],
               parameterCache := dset t.parameterCache p.1 p.2 })
    s1

/-! ## Interactor (`pyqtgraph/parametertree/interactive.py`) -/

/-- The option attributes of an `Interactor`.  All six are modelled as
Python values. -/
structure Interactor where
  runOpts : PyVal
  parent : PyVal
  title : PyVal
  nest : PyVal
  existOk : PyVal
  runActionTemplate : PyVal

/-- `Interactor._optNames`. -/
def Interactor._optNames : List String :=
  ["runOpts", "parent", "title", "nest", "existOk", "runActionTemplate"]

/-- `Interactor.getOpts`. -/
def Interactor.getOpts (i : Interactor) : List (String × PyVal) :=
  [("runOpts", i.runOpts), ("parent", i.parent), ("title", i.title),
   ("nest", i.nest), ("existOk", i.existOk),
   ("runActionTemplate", i.runActionTemplate)]

/-- `setattr(self, k, v)` for the six option attributes. -/
def Interactor.setAttr (i : Interactor) (k : String) (v : PyVal) : Interactor :=
  if k = "runOpts" then { i with runOpts := v }
  else if k = "parent" then { i with parent := v }
  else if k = "title" then { i with title := v }
  else if k = "nest" then { i with nest := v }
  else if k = "existOk" then { i with existOk := v }
  else if k = "runActionTemplate" then { i with runActionTemplate := v }
  else i

/-- `Interactor.setOpts(**opts)`: raises `KeyError` when a keyword is not an
option name (leaving the options untouched), otherwise sets each given
option and returns the dict of previous values of exactly those options. -/
def Interactor.setOpts (i : Interactor) (opts : List (String × PyVal)) :
    Except String (List (String × PyVal)) × Interactor :=
  let oldOpts := i.getOpts
  let errors := (dkeys opts).filter fun k => decide (k ∉ dkeys oldOpts)
  if errors ≠ [] then
    (.error "KeyError: unrecognized options", i)
  else
    let toReturn := opts.map fun kv => (kv.1, (dget oldOpts kv.1).getD .pynone)
    let i2 := opts.foldl (fun acc kv => acc.setAttr kv.1 kv.2) i
    (.ok toReturn, i2)

/-- The kind of a parameter in a Python function signature, as reported by
`inspect`; only the kinds the code distinguishes are modelled. -/
inductive ParamKind where
  | positionalOrKeyword : ParamKind
  | varKeyword : ParamKind
deriving DecidableEq

/-- One parameter of an `inspect.signature`: its name, kind, and default
(`none` = `inspect.Parameter.empty`; a `VAR_KEYWORD` parameter never has a
default). -/
structure SigParam where
  name : String
  kind : ParamKind
  default : Option PyVal

/-- A Python function as seen by `functionToParameterDict`: its `__name__`,
the synopsis `pydoc.splitdoc` extracts from its docstring (if any), and its
signature parameters in order. -/
structure PyFunction where
  name : String
  synopsis : Option String
  params : List SigParam

def PyVal.isUnset : PyVal → Bool
  | .unset => true
  | _ => false

/-- `if not isinstance(overridesInfo, dict): overridesInfo = {"value":
overridesInfo}`: the override information as a dict. -/
def ovdOf : PyVal → List (String × PyVal)
  | .dict es => es
  | v => [("value", v)]

/-- The `signatureDict` of `createFunctionParameter`: value and type from
the signature default, when there is one. -/
def signatureDictOf : Option SigParam → List (String × PyVal)
  | some p =>
    match p.default with
    | some d => [("value", d), ("type", .str d.typeName)]
    | none => []
  | none => []

/-- `Interactor.createFunctionParameter(name, signatureParameter,
overridesInfo)`.  `title` is the interactor's `title` option; only string
titles are modelled, for which `_nameToTitle(name)` returns the name
itself. -/
def Interactor.createFunctionParameter (title : Option String) (name : String)
    (signatureParameter : Option SigParam) (overridesInfo : PyVal) :
    List (String × PyVal) :=
  let signatureDict := signatureDictOf signatureParameter
  let ovd := ovdOf overridesInfo
  let pgDict := dupd signatureDict ovd
  let pgDict := dset pgDict "name" (.str name)
  let pgDict := dsetdefault pgDict "value" .unset
  let pgDict :=
    match title with
    | some _ => dsetdefault pgDict "title" (.str name)
    | none => pgDict
  dsetdefault pgDict "type" (.str ((dget pgDict "value").getD .unset).typeName)

/-- The `checkNames` list of `functionToParameterDict`: the signature
parameter names; when the signature has a `VAR_KEYWORD` parameter, that
name is removed and the override names not already present are appended. -/
def Interactor.checkNamesOf (f : PyFunction)
    (overrides : List (String × PyVal)) : List String :=
  let checkNames := f.params.map SigParam.name
  if f.params.any (fun p => p.kind == ParamKind.varKeyword) then
    let idx := f.params.findIdx fun p => p.kind == ParamKind.varKeyword
    let checkNames := checkNames.eraseIdx idx
    checkNames ++ (dkeys overrides).filter fun n => decide (n ∉ checkNames)
  else
    checkNames

/-- The group dict returned by `functionToParameterDict`. -/
structure GroupDict where
  name : String
  type : String
  title : Option String
  tip : Option String
  children : List (List (String × PyVal))

/-- The child dict `functionToParameterDict` builds for the name `nm`:
`createFunctionParameter(name, funcParams.get(name), overrides.get(name,
{}))`. -/
def Interactor.childFor (title : Option String) (f : PyFunction)
    (overrides : List (String × PyVal)) (nm : String) :
    List (String × PyVal) :=
  Interactor.createFunctionParameter title nm
    (f.params.find? fun p => p.name == nm)
    ((dget overrides nm).getD (.dict []))

/-- `Interactor.functionToParameterDict(function, **overrides)`. -/
def Interactor.functionToParameterDict (title : Option String)
    (f : PyFunction) (overrides : List (String × PyVal)) : GroupDict :=
  let checkNames := Interactor.checkNamesOf f overrides
  let children := checkNames.map (Interactor.childFor title f overrides)
  { name := f.name,
    type := "group",
    title := title,
    tip := match f.synopsis with
      | some s => if s ≠ "" then some s else none
      | none => none,
    children := children }

/-- `ch["name"]` of a child dict (always a string set by
`createFunctionParameter`). -/
def chNameOf (ch : List (String × PyVal)) : String :=
  match dget ch "name" with
  | some (.str s) => s
  | _ => ""

/-- `ch["value"]` of a child dict (always present after
`createFunctionParameter`). -/
def chValueOf (ch : List (String × PyVal)) : PyVal :=
  (dget ch "value").getD .unset

/-- One step of the value-recycling loop of `Interactor.interact`: the
ignored child's value is copied into `extra` when its name is not already
there and the value is not `PARAM_UNSET`. -/
def Interactor.recycleStep (children : List (List (String × PyVal)))
    (chNames : List String) (ex : List (String × PyVal)) (nm : String) :
    List (String × PyVal) :=
  let value := chValueOf (children.getD (chNames.indexOf nm) [])
  if (dget ex nm).isNone && !value.isUnset then dset ex nm value else ex

/-- The `missingChildren` computation of `Interactor.interact` (lines
331-361): the children of `functionToParameterDict`, the `ignores` list
extended with the closure names, the recycling of ignored children's values
into `extra`, and the list of children with no value from any source.
`interact` raises `ValueError` exactly when this list is nonempty. -/
def Interactor.interactMissing (title : Option String) (f : PyFunction)
    (closures : List String) (extra : List (String × PyVal))
    (ignores : List String) (overrides : List (String × PyVal)) :
    List String :=
  let children := (Interactor.functionToParameterDict title f overrides).children
  let chNames := children.map chNameOf
  let ignores2 := ignores ++ closures
  let recycleNames := ignores2.dedup.filter fun n => decide (n ∈ chNames)
  let extra2 := recycleNames.foldl (Interactor.recycleStep children chNames) extra
  (children.filter fun ch =>
    (chValueOf ch).isUnset
      && decide (chNameOf ch ∉ closures)
      && (dget extra2 (chNameOf ch)).isNone).map chNameOf

/-! ## Theorems -/

theorem clipZ_le (v lo hi : ℤ) (h : lo ≤ hi) : clipZ v lo hi ≤ hi := by
  unfold clipZ
  exact max_le h (min_le_right _ _)

/-- C1: for a `NonUniformImage` with a lookup table of length `L ≥ 1` and
levels `(mn, mx)`, `generatePicture` assigns a grid cell value `z` the
quantized index `clip(int((z - mn) * L / (mx - mn)), 0, L - 1)`, the divisor
`mx - mn` being replaced by `1` when `mx = mn`; hence every finite cell value
receives an index in `[0, L-1]`, and every NaN cell receives the invalid
index `L`. -/
theorem nonUniformImage_quantization (L : ℕ) (hL : 1 ≤ L) (mn mx : ℚ)
    (z : Option ℚ) :
    (∀ v, z = some v →
      cellColorIndex L mn mx z =
        (clipZ (pyTrunc ((v - mn) * (L : ℚ) / (if mx = mn then 1 else mx - mn)))
          0 ((L : ℤ) - 1)).toNat
      ∧ cellColorIndex L mn mx z ≤ L - 1)
    ∧ (z = none → cellColorIndex L mn mx z = L) := by
  constructor
  · intro v hv
    subst hv
    have harg : (v - mn) * ((L : ℚ) / (if mx - mn = 0 then 1 else mx - mn))
        = (v - mn) * (L : ℚ) / (if mx = mn then 1 else mx - mn) := by
      by_cases h : mx = mn
      · simp [h, sub_eq_zero]
      · have h2 : ¬ (mx - mn = 0) := fun hc => h (by linarith [sub_eq_zero.mp hc])
        rw [if_neg h2, if_neg h, mul_div_assoc]
    constructor
    · simp only [cellColorIndex, rescaleData, harg]
    · have hb : clipZ (pyTrunc ((v - mn) * ((L : ℚ) / (if mx - mn = 0 then 1 else mx - mn)))) 0 ((L : ℤ) - 1) ≤ (L : ℤ) - 1 := by
        apply clipZ_le
        omega
      simp only [cellColorIndex, rescaleData]
      omega
  · intro h
    subst h
    rfl

theorem nonUniformImage_quantization_witness :
    cellColorIndex 4 0 2 (some 1) =
      (clipZ (pyTrunc ((1 - 0) * (4 : ℚ) / (if (2 : ℚ) = 0 then 1 else 2 - 0)))
        0 (4 - 1)).toNat
    ∧ cellColorIndex 4 0 2 (some 1) ≤ 3
    ∧ cellColorIndex 4 0 2 none = 4 := by
  have h := nonUniformImage_quantization 4 (by norm_num) 0 2 (some 1)
  have h2 := nonUniformImage_quantization 4 (by norm_num) 0 2 none
  exact ⟨(h.1 1 rfl).1, (h.1 1 rfl).2, h2.2 rfl⟩

theorem foldl_min_le (v : ℚ) (vs : List ℚ) :
    ∀ w ∈ v :: vs, vs.foldl min v ≤ w := by
  induction vs generalizing v with
  | nil =>
    intro w hw
    simp at hw
    simp [hw]
  | cons u vs ih =>
    intro w hw
    rw [List.foldl_cons]
    have hhead : vs.foldl min (min v u) ≤ min v u :=
      ih (min v u) _ (List.mem_cons_self _ _)
    simp only [List.mem_cons] at hw
    rcases hw with hw | hw | hw
    · subst hw
      exact le_trans hhead (min_le_left _ _)
    · subst hw
      exact le_trans hhead (min_le_right _ _)
    · exact ih (min v u) w (List.mem_cons_of_mem _ hw)

theorem foldl_min_mem (v : ℚ) (vs : List ℚ) :
    vs.foldl min v ∈ v :: vs := by
  induction vs generalizing v with
  | nil => simp
  | cons u vs ih =>
    rw [List.foldl_cons]
    have h := ih (min v u)
    simp only [List.mem_cons] at h ⊢
    rcases h with h | h
    · rw [h]
      rcases min_choice v u with hm | hm
      · exact Or.inl hm
      · exact Or.inr (Or.inl hm)
    · exact Or.inr (Or.inr h)

theorem foldl_max_ge (v : ℚ) (vs : List ℚ) :
    ∀ w ∈ v :: vs, w ≤ vs.foldl max v := by
  induction vs generalizing v with
  | nil =>
    intro w hw
    simp at hw
    simp [hw]
  | cons u vs ih =>
    intro w hw
    rw [List.foldl_cons]
    have hhead : max v u ≤ vs.foldl max (max v u) :=
      ih (max v u) _ (List.mem_cons_self _ _)
    simp only [List.mem_cons] at hw
    rcases hw with hw | hw | hw
    · subst hw
      exact le_trans (le_max_left _ _) hhead
    · subst hw
      exact le_trans (le_max_right _ _) hhead
    · exact ih (max v u) w (List.mem_cons_of_mem _ hw)

theorem foldl_max_mem (v : ℚ) (vs : List ℚ) :
    vs.foldl max v ∈ v :: vs := by
  induction vs generalizing v with
  | nil => simp
  | cons u vs ih =>
    rw [List.foldl_cons]
    have h := ih (max v u)
    simp only [List.mem_cons] at h ⊢
    rcases h with h | h
    · rw [h]
      rcases max_choice v u with hm | hm
      · exact Or.inl hm
      · exact Or.inr (Or.inl hm)
    · exact Or.inr (Or.inr h)

/-- C10: for a `NonUniformImage` with no levels set whose `z` array has at
least one finite entry, `getLevels` returns the minimum and maximum of the
finite entries of `z` and caches the pair, so that subsequent `getLevels`
calls return the same pair. -/
theorem nonUniformImage_getLevels (s : NonUniformImage)
    (hnone : s.levels = none) (v : ℚ) (vs : List ℚ)
    (hfin : finiteVals s.data.2.2.data = v :: vs) :
    ∃ mn mx s2, s.getLevels = .ok ((mn, mx), s2)
      ∧ mn ∈ finiteVals s.data.2.2.data
      ∧ mx ∈ finiteVals s.data.2.2.data
      ∧ (∀ w ∈ finiteVals s.data.2.2.data, mn ≤ w ∧ w ≤ mx)
      ∧ s2.levels = some (mn, mx)
      ∧ s2.getLevels = .ok ((mn, mx), s2) := by
  refine ⟨vs.foldl min v, vs.foldl max v,
    { s with levels := some (vs.foldl min v, vs.foldl max v) }, ?_, ?_, ?_, ?_, rfl, ?_⟩
  · unfold NonUniformImage.getLevels
    rw [hnone, hfin]
  · rw [hfin]
    exact foldl_min_mem v vs
  · rw [hfin]
    exact foldl_max_mem v vs
  · intro w hw
    rw [hfin] at hw
    exact ⟨foldl_min_le v vs w hw, foldl_max_ge v vs w hw⟩
  · unfold NonUniformImage.getLevels
    rfl

theorem nonUniformImage_getLevels_witness :
    ∃ mn mx s2,
      NonUniformImage.getLevels
        { data := (⟨[1], [0]⟩, ⟨[2], [0, 1]⟩, ⟨[1, 2], [some 3, none]⟩),
          dataBounds := ((0, 0), (0, 1)),
          edgecolors := none, antialiasing := .bool false,
          levels := none, lut := none, picture := none } = .ok ((mn, mx), s2)
      ∧ s2.levels = some (mn, mx) := by
  obtain ⟨mn, mx, s2, h1, _, _, _, h5, _⟩ :=
    nonUniformImage_getLevels
      { data := (⟨[1], [0]⟩, ⟨[2], [0, 1]⟩, ⟨[1, 2], [some 3, none]⟩),
        dataBounds := ((0, 0), (0, 1)),
        edgecolors := none, antialiasing := .bool false,
        levels := none, lut := none, picture := none }
      rfl 3 [] rfl
  exact ⟨mn, mx, s2, h1, h5⟩

theorem init_eq_error_dim (x y : NDArr ℚ) (z : NDArr (Option ℚ))
    (b : Option PyVal) (kw : List (String × PyVal))
    (h : x.ndim ≠ 1 ∨ y.ndim ≠ 1) :
    NonUniformImage.init x y z b kw =
      .error (.valueError "x and y must be 1-d arrays.") := by
  simp only [NonUniformImage.init]
  rw [if_pos h]

theorem init_eq_error_mono (x y : NDArr ℚ) (z : NDArr (Option ℚ))
    (b : Option PyVal) (kw : List (String × PyVal))
    (hA1 : x.ndim = 1) (hA2 : y.ndim = 1)
    (hB : ¬ (monotonicOk x.data = true ∧ monotonicOk y.data = true)) :
    NonUniformImage.init x y z b kw =
      .error (.valueError "The values in x and y must be monotonically increasing.") := by
  simp only [NonUniformImage.init]
  rw [if_neg (by push_neg; exact ⟨hA1, hA2⟩), if_pos hB]

theorem init_eq_error_shape (x y : NDArr ℚ) (z : NDArr (Option ℚ))
    (b : Option PyVal) (kw : List (String × PyVal))
    (hA1 : x.ndim = 1) (hA2 : y.ndim = 1)
    (hB1 : monotonicOk x.data = true) (hB2 : monotonicOk y.data = true)
    (hC : z.ndim ≠ 2 ∨ z.shape ≠ [x.size, y.size]) :
    NonUniformImage.init x y z b kw =
      .error (.valueError "The length of x and y must match the shape of z.") := by
  simp only [NonUniformImage.init]
  rw [if_neg (by push_neg; exact ⟨hA1, hA2⟩), if_neg (by simp [hB1, hB2]), if_pos hC]

theorem init_eq_ok (x y : NDArr ℚ) (z : NDArr (Option ℚ))
    (b : Option PyVal) (kw : List (String × PyVal))
    (hA1 : x.ndim = 1) (hA2 : y.ndim = 1)
    (hB1 : monotonicOk x.data = true) (hB2 : monotonicOk y.data = true)
    (hC1 : z.ndim = 2) (hC2 : z.shape = [x.size, y.size])
    (x0 : ℚ) (xs : List ℚ) (hx : x.data = x0 :: xs)
    (y0 : ℚ) (ys : List ℚ) (hy : y.data = y0 :: ys) :
    NonUniformImage.init x y z b kw = .ok
      { data := (x, y, z),
        dataBounds := ((x0, xs.getLastD x0), (y0, ys.getLastD y0)),
        edgecolors := match dget kw "edgecolors" with
          | none => none
          | some e => some ((mkPen e).setCosmetic true),
        antialiasing := (dget kw "antialiasing").getD (PyVal.bool false),
        levels := none, lut := none, picture := none } := by
  simp only [NonUniformImage.init]
  rw [if_neg (by push_neg; exact ⟨hA1, hA2⟩), if_neg (by simp [hB1, hB2]),
    if_neg (by push_neg; exact ⟨hC1, hC2⟩), hx, hy]

theorem init_eq_error_empty (x y : NDArr ℚ) (z : NDArr (Option ℚ))
    (b : Option PyVal) (kw : List (String × PyVal))
    (hA1 : x.ndim = 1) (hA2 : y.ndim = 1)
    (hB1 : monotonicOk x.data = true) (hB2 : monotonicOk y.data = true)
    (hC1 : z.ndim = 2) (hC2 : z.shape = [x.size, y.size])
    (hxy : x.data = [] ∨ y.data = []) :
    NonUniformImage.init x y z b kw =
      .error (.indexError "index 0 is out of bounds for axis 0 with size 0") := by
  simp only [NonUniformImage.init]
  rw [if_neg (by push_neg; exact ⟨hA1, hA2⟩), if_neg (by simp [hB1, hB2]),
    if_neg (by push_neg; exact ⟨hC1, hC2⟩)]
  rcases hxy with h | h
  · rw [h]
  · rw [h]
    cases hx : x.data with
    | nil => rfl
    | cons x0 xs => rfl

/-- C6 (amended): `NonUniformImage(x, y, z, ...)` raises `ValueError` exactly
when x or y is not 1-dimensional, the values of x or y are not monotonically
increasing (in the code's non-strict sense, `np.diff < 0` nowhere), or z is
not 2-dimensional of shape `(x.size, y.size)`; for inputs satisfying all of
these conditions *and having nonempty x and y*, construction succeeds and
stores `(x, y, z)` as the image data.  (As frozen, the claim omits the
nonemptiness requirement: empty x and y pass every validation yet
construction fails with `IndexError` when line 102 evaluates `x[0]`.) -/
theorem nonUniformImage_init_validation (x y : NDArr ℚ) (z : NDArr (Option ℚ))
    (border : Option PyVal) (kwargs : List (String × PyVal)) :
    ((∃ msg, NonUniformImage.init x y z border kwargs = .error (.valueError msg)) ↔
      ¬ (x.ndim = 1 ∧ y.ndim = 1
          ∧ monotonicOk x.data = true ∧ monotonicOk y.data = true
          ∧ z.ndim = 2 ∧ z.shape = [x.size, y.size]))
    ∧ (x.ndim = 1 → y.ndim = 1
        → monotonicOk x.data = true → monotonicOk y.data = true
        → z.ndim = 2 → z.shape = [x.size, y.size]
        → x.data ≠ [] → y.data ≠ []
        → ∃ s, NonUniformImage.init x y z border kwargs = .ok s
            ∧ s.data = (x, y, z)) := by
  constructor
  · constructor
    · rintro ⟨msg, hmsg⟩ hcon
      obtain ⟨hA1, hA2, hB1, hB2, hC1, hC2⟩ := hcon
      cases hx : x.data with
      | nil =>
        rw [init_eq_error_empty x y z border kwargs hA1 hA2 hB1 hB2 hC1 hC2
          (Or.inl hx)] at hmsg
        simp at hmsg
      | cons x0 xs =>
        cases hy : y.data with
        | nil =>
          rw [init_eq_error_empty x y z border kwargs hA1 hA2 hB1 hB2 hC1 hC2
            (Or.inr hy)] at hmsg
          simp at hmsg
        | cons y0 ys =>
          rw [init_eq_ok x y z border kwargs hA1 hA2 hB1 hB2 hC1 hC2
            x0 xs hx y0 ys hy] at hmsg
          simp at hmsg
    · intro hcon
      by_cases hA : x.ndim = 1 ∧ y.ndim = 1
      · by_cases hB : monotonicOk x.data = true ∧ monotonicOk y.data = true
        · by_cases hC : z.ndim = 2 ∧ z.shape = [x.size, y.size]
          · exact absurd ⟨hA.1, hA.2, hB.1, hB.2, hC.1, hC.2⟩ hcon
          · refine ⟨_, init_eq_error_shape x y z border kwargs hA.1 hA.2 hB.1 hB.2 ?_⟩
            tauto
        · exact ⟨_, init_eq_error_mono x y z border kwargs hA.1 hA.2 hB⟩
      · refine ⟨_, init_eq_error_dim x y z border kwargs ?_⟩
        tauto
  · intro hA1 hA2 hB1 hB2 hC1 hC2 hx hy
    obtain ⟨x0, xs, hxe⟩ := List.exists_cons_of_ne_nil hx
    obtain ⟨y0, ys, hye⟩ := List.exists_cons_of_ne_nil hy
    exact ⟨_, init_eq_ok x y z border kwargs hA1 hA2 hB1 hB2 hC1 hC2
      x0 xs hxe y0 ys hye, rfl⟩

/-- The empty 1-d float array `np.asarray([], dtype=np.float64)`. -/
def c6x : NDArr ℚ := ⟨[0], []⟩

/-- The empty 2-d float array of shape `(0, 0)`. -/
def c6z : NDArr (Option ℚ) := ⟨[0, 0], []⟩

/-- C6 counterexample: with `x = y = np.array([])` and `z` of shape `(0, 0)`,
x and y are 1-dimensional and monotonically increasing and z is
2-dimensional of shape `(x.size, y.size)`, yet construction does not
succeed: `__init__` raises `IndexError` at `x[0]`, refuting the claim that
construction succeeds for all inputs satisfying the three conditions. -/
theorem nonUniformImage_init_validation_counterexample :
    (c6x.ndim = 1 ∧ monotonicOk c6x.data = true
      ∧ c6z.ndim = 2 ∧ c6z.shape = [c6x.size, c6x.size])
    ∧ NonUniformImage.init c6x c6x c6z none [] =
        .error (.indexError "index 0 is out of bounds for axis 0 with size 0")
    ∧ ∀ s, NonUniformImage.init c6x c6x c6z none [] ≠ .ok s := by
  refine ⟨⟨rfl, rfl, rfl, by decide⟩, rfl, ?_⟩
  intro s h
  rw [show NonUniformImage.init c6x c6x c6z none [] =
    .error (.indexError "index 0 is out of bounds for axis 0 with size 0") from rfl] at h
  exact Except.noConfusion h

theorem nonUniformImage_init_validation_witness :
    ∃ s, NonUniformImage.init ⟨[2], [0, 1]⟩ ⟨[1], [5]⟩ ⟨[2, 1], [some 0, none]⟩
        none [] = .ok s
      ∧ s.data = (⟨[2], [0, 1]⟩, ⟨[1], [5]⟩, ⟨[2, 1], [some 0, none]⟩) :=
  (nonUniformImage_init_validation ⟨[2], [0, 1]⟩ ⟨[1], [5]⟩
    ⟨[2, 1], [some 0, none]⟩ none []).2
    rfl rfl (by decide) (by decide) rfl (by decide) (by decide) (by decide)

/-- C9: the `border` positional argument of `NonUniformImage.__init__` has no
effect on the constructed object; the stored edge pen is determined solely by
the `edgecolors` keyword: `None` when absent (even if a border was passed),
and `mkPen(edgecolors)` forced cosmetic when present. -/
theorem nonUniformImage_border_ignored (x y : NDArr ℚ) (z : NDArr (Option ℚ))
    (b1 b2 : Option PyVal) (kwargs : List (String × PyVal)) :
    NonUniformImage.init x y z b1 kwargs = NonUniformImage.init x y z b2 kwargs
    ∧ (dget kwargs "edgecolors" = none →
        ∀ s, NonUniformImage.init x y z b1 kwargs = .ok s → s.edgecolors = none)
    ∧ (∀ e, dget kwargs "edgecolors" = some e →
        ∀ s, NonUniformImage.init x y z b1 kwargs = .ok s →
          s.edgecolors = some ((mkPen e).setCosmetic true)
          ∧ ((mkPen e).setCosmetic true).cosmetic = true) := by
  refine ⟨rfl, ?_, ?_⟩
  · intro h s hs
    simp only [NonUniformImage.init] at hs
    split at hs
    · exact Except.noConfusion hs
    · split at hs
      · exact Except.noConfusion hs
      · split at hs
        · exact Except.noConfusion hs
        · split at hs
          · exact Except.noConfusion hs
          · exact Except.noConfusion hs
          · injection hs with hs2
            rw [← hs2]
            simp only [h]
  · intro e h s hs
    refine ⟨?_, rfl⟩
    simp only [NonUniformImage.init] at hs
    split at hs
    · exact Except.noConfusion hs
    · split at hs
      · exact Except.noConfusion hs
      · split at hs
        · exact Except.noConfusion hs
        · split at hs
          · exact Except.noConfusion hs
          · exact Except.noConfusion hs
          · injection hs with hs2
            rw [← hs2]
            simp only [h]

theorem nonUniformImage_border_ignored_witness :
    NonUniformImage.init ⟨[1], [0]⟩ ⟨[1], [0]⟩ ⟨[1, 1], [some 0]⟩
        (some (.int 9)) [("edgecolors", .int 3)]
      = NonUniformImage.init ⟨[1], [0]⟩ ⟨[1], [0]⟩ ⟨[1, 1], [some 0]⟩
        none [("edgecolors", .int 3)]
    ∧ ∀ s, NonUniformImage.init ⟨[1], [0]⟩ ⟨[1], [0]⟩ ⟨[1, 1], [some 0]⟩
        (some (.int 9)) [("edgecolors", .int 3)] = .ok s →
        s.edgecolors = some ((mkPen (.int 3)).setCosmetic true) := by
  have h := nonUniformImage_border_ignored ⟨[1], [0]⟩ ⟨[1], [0]⟩
    ⟨[1, 1], [some 0]⟩ (some (.int 9)) none [("edgecolors", .int 3)]
  exact ⟨h.1, fun s hs => (h.2.2 (.int 3) rfl s hs).1⟩

/-- C3: while an `InteractiveFunction` is disconnected, the `runFrom*`
entry points return `None` and leave the state (including the ghost
invocation log) untouched, so the wrapped function is never invoked;
`disconnect`/`setDisconnected True` enter and `reconnect`/`setDisconnected
False` leave the disconnected state; once the flag is `False` the
`runFrom*` entry points invoke the wrapped function again (the invocation
log grows); and `disconnect`, `reconnect` and `setDisconnected` each return
the previous value of the disconnected flag. -/
theorem interactiveFunction_disconnect_semantics (s : InteractiveFunction)
    (nm : String) (v : PyVal) (kwargs : List (String × PyVal)) (b : Bool) :
    (s._disconnected = true →
      s.runFromChangedOrChanging nm v = (none, s)
      ∧ s.runFromAction kwargs = (none, s))
    ∧ ((s.disconnect).2._disconnected = true
        ∧ (s.setDisconnected true).2._disconnected = true
        ∧ (s.reconnect).2._disconnected = false
        ∧ (s.setDisconnected false).2._disconnected = false)
    ∧ (s._disconnected = false →
        (∃ r, (s.runFromChangedOrChanging nm v).1 = some r)
        ∧ ((s.runFromChangedOrChanging nm v).2.callLog.length
            = s.callLog.length + 1)
        ∧ (∃ r, (s.runFromAction kwargs).1 = some r)
        ∧ ((s.runFromAction kwargs).2.callLog.length = s.callLog.length + 1))
    ∧ ((s.disconnect).1 = s._disconnected
        ∧ (s.reconnect).1 = s._disconnected
        ∧ (s.setDisconnected b).1 = s._disconnected) := by
  refine ⟨?_, ⟨rfl, rfl, rfl, rfl⟩, ?_, rfl, rfl, rfl⟩
  · intro h
    constructor
    · simp [InteractiveFunction.runFromChangedOrChanging, h]
    · simp [InteractiveFunction.runFromAction, h]
  · intro h
    refine ⟨?_, ?_, ?_, ?_⟩
    · simp [InteractiveFunction.runFromChangedOrChanging, h,
        InteractiveFunction.call]
    · simp [InteractiveFunction.runFromChangedOrChanging, h,
        InteractiveFunction.call]
    · simp [InteractiveFunction.runFromAction, h, InteractiveFunction.call]
    · cases hp : s.parametersNeedRunKwargs <;>
        simp [InteractiveFunction.runFromAction, h, InteractiveFunction.call,
          InteractiveFunction.updateParametersFromRunKwargs, hp]

/-- An example `InteractiveFunction` state used by the witnesses. -/
def exampleIF : InteractiveFunction :=
  { function := fun kw => (dget kw "a").getD .pynone,
    extra := [("e", .int 1), ("a", .int 0)],
    closures := [("c", fun _ => .int 7)],
    parameters := ["p"],
    parameterCache := [("p", .int 2)],
    _disconnected := true,
    parametersNeedRunKwargs := false,
    callLog := [] }

theorem interactiveFunction_disconnect_semantics_witness :
    exampleIF.runFromChangedOrChanging "p" (.int 1) = (none, exampleIF)
    ∧ (exampleIF.disconnect).1 = exampleIF._disconnected
    ∧ (∃ r, ((exampleIF.reconnect).2.runFromAction []).1 = some r) := by
  have h := interactiveFunction_disconnect_semantics exampleIF "p" (.int 1) [] false
  have h2 := interactiveFunction_disconnect_semantics (exampleIF.reconnect).2
    "p" (.int 1) [] false
  exact ⟨(h.1 rfl).1, h.2.2.2.1, (h2.2.2.1 rfl).2.2.1⟩

/-- C4: with `parametersNeedRunKwargs` false, `__call__(**kwargs)` invokes
the wrapped function with keywords built from `extra`, overridden by the
cached parameter values, overridden by the freshly evaluated closures,
overridden by the call-time kwargs (highest precedence), and leaves `extra`
and `parameterCache` unchanged. -/
theorem interactiveFunction_call_builds_kwargs (s : InteractiveFunction)
    (kwargs : List (String × PyVal))
    (h : s.parametersNeedRunKwargs = false)
    (hc : (dkeys s.parameterCache).Nodup)
    (hcl : (dkeys s.closureKwargs).Nodup)
    (hk : (dkeys kwargs).Nodup) :
    (s.call kwargs).1 = s.function (s.runKwargsOf kwargs)
    ∧ (∀ k, dget (s.runKwargsOf kwargs) k =
        (dget kwargs k).or ((dget s.closureKwargs k).or
          ((dget s.parameterCache k).or (dget s.extra k))))
    ∧ (s.call kwargs).2.extra = s.extra
    ∧ (s.call kwargs).2.parameterCache = s.parameterCache := by
  refine ⟨?_, ?_, ?_, ?_⟩
  · simp [InteractiveFunction.call, h]
  · intro k
    unfold InteractiveFunction.runKwargsOf
    rw [dget_dupd _ _ _ hk, dget_dupd _ _ _ hcl, dget_dupd _ _ _ hc]
  · simp [InteractiveFunction.call, h]
  · simp [InteractiveFunction.call, h]

theorem interactiveFunction_call_builds_kwargs_witness :
    (exampleIF.call [("a", .int 9)]).2.extra = exampleIF.extra
    ∧ dget (exampleIF.runKwargsOf [("a", .int 9)]) "a" = some (.int 9)
    ∧ dget (exampleIF.runKwargsOf [("a", .int 9)]) "c" = some (.int 7)
    ∧ dget (exampleIF.runKwargsOf [("a", .int 9)]) "p" = some (.int 2)
    ∧ dget (exampleIF.runKwargsOf [("a", .int 9)]) "e" = some (.int 1) := by
  have h := interactiveFunction_call_builds_kwargs exampleIF [("a", .int 9)]
    rfl (by decide) (by decide) (by decide)
  refine ⟨h.2.2.1, ?_, ?_, ?_, ?_⟩
  · rw [h.2.1 "a"]
    rfl
  · rw [h.2.1 "c"]
    rfl
  · rw [h.2.1 "p"]
    rfl
  · rw [h.2.1 "e"]
    rfl

theorem setAttr_runOpts (i : Interactor) (k : String) (v : PyVal) :
    (i.setAttr k v).runOpts = if k = "runOpts" then v else i.runOpts := by
  unfold Interactor.setAttr
  split_ifs <;> simp_all

theorem setAttr_parent (i : Interactor) (k : String) (v : PyVal) :
    (i.setAttr k v).parent = if k = "parent" then v else i.parent := by
  unfold Interactor.setAttr
  split_ifs <;> simp_all

theorem setAttr_title (i : Interactor) (k : String) (v : PyVal) :
    (i.setAttr k v).title = if k = "title" then v else i.title := by
  unfold Interactor.setAttr
  split_ifs <;> simp_all

theorem setAttr_nest (i : Interactor) (k : String) (v : PyVal) :
    (i.setAttr k v).nest = if k = "nest" then v else i.nest := by
  unfold Interactor.setAttr
  split_ifs <;> simp_all

theorem setAttr_existOk (i : Interactor) (k : String) (v : PyVal) :
    (i.setAttr k v).existOk = if k = "existOk" then v else i.existOk := by
  unfold Interactor.setAttr
  split_ifs <;> simp_all

theorem setAttr_runActionTemplate (i : Interactor) (k : String) (v : PyVal) :
    (i.setAttr k v).runActionTemplate =
      if k = "runActionTemplate" then v else i.runActionTemplate := by
  unfold Interactor.setAttr
  split_ifs <;> simp_all

theorem foldl_setAttr_get (g : Interactor → PyVal) (nm : String)
    (hg : ∀ i k v, g (Interactor.setAttr i k v) = if k = nm then v else g i)
    (opts : List (String × PyVal)) (hnd : (dkeys opts).Nodup) (i : Interactor) :
    g (opts.foldl (fun acc kv => acc.setAttr kv.1 kv.2) i) =
      (dget opts nm).getD (g i) := by
  induction opts generalizing i with
  | nil => simp [dget]
  | cons hd tl ih =>
    simp only [dkeys, List.map_cons, List.nodup_cons] at hnd
    rw [List.foldl_cons, ih (by simpa [dkeys] using hnd.2)]
    by_cases h : hd.1 = nm
    · have h1 : dget tl nm = none := by
        apply dget_eq_none_of_not_mem
        rw [← h]
        simpa [dkeys] using hnd.1
      rw [hg, if_pos h, h1]
      simp [dget, h.symm]
    · rw [hg, if_neg h]
      have h2 : ¬ (nm = hd.1) := fun hh => h hh.symm
      simp [dget, h2]

theorem dget_map_keyfun {α β : Type} (d : List (String × α)) (f : String → β)
    (k : String) :
    dget (d.map fun kv => (kv.1, f kv.1)) k =
      if k ∈ dkeys d then some (f k) else none := by
  induction d with
  | nil => simp [dget, dkeys]
  | cons hd tl ih =>
    by_cases h : k = hd.1
    · simp [dget, dkeys, h]
    · simp only [List.map_cons, dget, if_neg h, ih]
      by_cases hm : k ∈ List.map Prod.fst tl
      · simp [dkeys, hm, h]
      · simp [dkeys, hm, h]

theorem dget_isSome_of_mem {α : Type} (d : List (String × α)) (k : String)
    (h : k ∈ dkeys d) : ∃ v, dget d k = some v := by
  induction d with
  | nil => simp [dkeys] at h
  | cons hd tl ih =>
    by_cases hk : k = hd.1
    · exact ⟨hd.2, by simp [dget, hk]⟩
    · simp only [dkeys, List.map_cons, List.mem_cons] at h
      rcases h with h | h
      · exact absurd h hk
      · obtain ⟨v, hv⟩ := ih (by simpa [dkeys] using h)
        exact ⟨v, by simp [dget, hk, hv]⟩

/-- C7: `Interactor.setOpts(**opts)` raises `KeyError` when any keyword is
not one of the six recognized option names, leaving every option untouched;
when all keywords are recognized it sets each named option and returns a
dict mapping exactly those names to their previous values. -/
theorem interactor_setOpts_spec (i : Interactor) (opts : List (String × PyVal))
    (hnd : (dkeys opts).Nodup) :
    ((∃ k, k ∈ dkeys opts ∧ k ∉ Interactor._optNames) →
      (i.setOpts opts).1 = .error "KeyError: unrecognized options"
      ∧ (i.setOpts opts).2 = i)
    ∧ ((∀ k ∈ dkeys opts, k ∈ Interactor._optNames) →
      ∃ ret, (i.setOpts opts).1 = .ok ret
        ∧ dkeys ret = dkeys opts
        ∧ (∀ k ∈ dkeys opts, dget ret k = dget i.getOpts k)
        ∧ (∀ k ∈ Interactor._optNames,
            dget ((i.setOpts opts).2.getOpts) k
              = (dget opts k).or (dget i.getOpts k))) := by
  have hkeys : dkeys i.getOpts = Interactor._optNames := rfl
  constructor
  · rintro ⟨k0, hk0mem, hk0not⟩
    have herr : ((dkeys opts).filter fun k => decide (k ∉ dkeys i.getOpts)) ≠ [] := by
      intro hnil
      have hmem : k0 ∈ (dkeys opts).filter fun k => decide (k ∉ dkeys i.getOpts) :=
        List.mem_filter.mpr ⟨hk0mem, by simp [hkeys, hk0not]⟩
      rw [hnil] at hmem
      exact absurd hmem (List.not_mem_nil _)
    constructor
    · simp only [Interactor.setOpts]
      rw [if_pos herr]
    · simp only [Interactor.setOpts]
      rw [if_pos herr]
  · intro hall
    have herr : ((dkeys opts).filter fun k => decide (k ∉ dkeys i.getOpts)) = [] := by
      apply List.filter_eq_nil_iff.mpr
      intro a ha hcon
      exact (of_decide_eq_true hcon) (by rw [hkeys]; exact hall a ha)
    have hok : i.setOpts opts =
        (.ok (opts.map fun kv => (kv.1, (dget i.getOpts kv.1).getD .pynone)),
         opts.foldl (fun acc kv => acc.setAttr kv.1 kv.2) i) := by
      simp only [Interactor.setOpts]
      rw [if_neg (not_ne_iff.mpr herr)]
    refine ⟨_, by rw [hok], ?_, ?_, ?_⟩
    · simp [dkeys, List.map_map]
    · intro k hk
      rw [dget_map_keyfun opts (fun k0 => (dget i.getOpts k0).getD .pynone) k,
        if_pos hk]
      obtain ⟨v, hv⟩ := dget_isSome_of_mem i.getOpts k (by rw [hkeys]; exact hall k hk)
      rw [hv]
      rfl
    · intro k hk
      simp only [hok]
      simp only [Interactor._optNames, List.mem_cons, List.not_mem_nil, or_false] at hk
      rcases hk with rfl | rfl | rfl | rfl | rfl | rfl
      · rw [show ∀ i2 : Interactor, dget i2.getOpts "runOpts" = some i2.runOpts
            from fun i2 => rfl,
          foldl_setAttr_get Interactor.runOpts "runOpts" setAttr_runOpts opts hnd i]
        cases hd : dget opts "runOpts" <;> simp [hd, Interactor.getOpts, dget]
      · rw [show ∀ i2 : Interactor, dget i2.getOpts "parent" = some i2.parent
            from fun i2 => rfl,
          foldl_setAttr_get Interactor.parent "parent" setAttr_parent opts hnd i]
        cases hd : dget opts "parent" <;> simp [hd, Interactor.getOpts, dget]
      · rw [show ∀ i2 : Interactor, dget i2.getOpts "title" = some i2.title
            from fun i2 => rfl,
          foldl_setAttr_get Interactor.title "title" setAttr_title opts hnd i]
        cases hd : dget opts "title" <;> simp [hd, Interactor.getOpts, dget]
      · rw [show ∀ i2 : Interactor, dget i2.getOpts "nest" = some i2.nest
            from fun i2 => rfl,
          foldl_setAttr_get Interactor.nest "nest" setAttr_nest opts hnd i]
        cases hd : dget opts "nest" <;> simp [hd, Interactor.getOpts, dget]
      · rw [show ∀ i2 : Interactor, dget i2.getOpts "existOk" = some i2.existOk
            from fun i2 => rfl,
          foldl_setAttr_get Interactor.existOk "existOk" setAttr_existOk opts hnd i]
        cases hd : dget opts "existOk" <;> simp [hd, Interactor.getOpts, dget]
      · rw [show ∀ i2 : Interactor, dget i2.getOpts "runActionTemplate"
              = some i2.runActionTemplate from fun i2 => rfl,
          foldl_setAttr_get Interactor.runActionTemplate "runActionTemplate"
            setAttr_runActionTemplate opts hnd i]
        cases hd : dget opts "runActionTemplate" <;>
          simp [hd, Interactor.getOpts, dget]

/-- The class-level default options of `Interactor`. -/
def defaultInteractor : Interactor :=
  ⟨.str "changed", .pynone, .pynone, .bool true, .bool true,
   .dict [("type", .str "action"), ("defaultName", .str "Run")]⟩

theorem interactor_setOpts_spec_witness :
    (defaultInteractor.setOpts [("bogus", .int 1)]).2 = defaultInteractor
    ∧ ∃ ret, (defaultInteractor.setOpts [("nest", .bool false)]).1 = .ok ret
        ∧ dkeys ret = ["nest"] := by
  have h1 := interactor_setOpts_spec defaultInteractor [("bogus", .int 1)] (by decide)
  have h2 := interactor_setOpts_spec defaultInteractor [("nest", .bool false)] (by decide)
  refine ⟨(h1.1 ⟨"bogus", by decide, by decide⟩).2, ?_⟩
  obtain ⟨ret, hr1, hr2, _, _⟩ := h2.2 (by decide)
  exact ⟨ret, hr1, by rw [hr2]; rfl⟩

/-- The override dict supplied for parameter `nm` in `overrides` (the empty
dict when absent, a one-entry value dict when the override is a bare
value). -/
def overrideDictFor (overrides : List (String × PyVal)) (nm : String) :
    List (String × PyVal) :=
  ovdOf ((dget overrides nm).getD (.dict []))

/-- The child value `createFunctionParameter` resolves: the override value
when given, else the signature default, else `PARAM_UNSET`. -/
def resolvedValueFor (ovd : List (String × PyVal)) (dflt : Option PyVal) :
    PyVal :=
  ((dget ovd "value").or dflt).getD .unset

/-- The child type `createFunctionParameter` resolves: the override type
when given, else the type name of the signature default, else the type name
of the resolved value. -/
def resolvedTypeFor (ovd : List (String × PyVal)) (dflt : Option PyVal) :
    PyVal :=
  ((dget ovd "type").or (dflt.map fun d => .str d.typeName)).getD
    (.str (resolvedValueFor ovd dflt).typeName)

theorem sigdict_value (sp : Option SigParam) :
    dget (signatureDictOf sp) "value" = sp.bind SigParam.default := by
  cases sp with
  | none => rfl
  | some p =>
    cases hp : p.default with
    | none => simp [signatureDictOf, hp, dget]
    | some d => simp [signatureDictOf, hp, dget]

theorem sigdict_type (sp : Option SigParam) :
    dget (signatureDictOf sp) "type" =
      (sp.bind SigParam.default).map fun d => .str d.typeName := by
  cases sp with
  | none => rfl
  | some p =>
    cases hp : p.default with
    | none => simp [signatureDictOf, hp, dget]
    | some d => simp [signatureDictOf, hp, dget]

theorem createFunctionParameter_name (title : Option String) (name : String)
    (sp : Option SigParam) (ov : PyVal) :
    dget (Interactor.createFunctionParameter title name sp ov) "name" =
      some (.str name) := by
  cases title with
  | none =>
    simp only [Interactor.createFunctionParameter]
    rw [dget_dsetdefault_ne _ _ _ _ (by decide),
      dget_dsetdefault_ne _ _ _ _ (by decide), dget_dset_self]
  | some t =>
    simp only [Interactor.createFunctionParameter]
    rw [dget_dsetdefault_ne _ _ _ _ (by decide),
      dget_dsetdefault_ne _ _ _ _ (by decide),
      dget_dsetdefault_ne _ _ _ _ (by decide), dget_dset_self]

theorem createFunctionParameter_value (title : Option String) (name : String)
    (sp : Option SigParam) (ov : PyVal)
    (hov : (dkeys (ovdOf ov)).Nodup) :
    dget (Interactor.createFunctionParameter title name sp ov) "value" =
      some (resolvedValueFor (ovdOf ov) (sp.bind SigParam.default)) := by
  have hmain : dget (dset (dupd (signatureDictOf sp) (ovdOf ov)) "name"
      (.str name)) "value" = (dget (ovdOf ov) "value").or (sp.bind SigParam.default) := by
    rw [dget_dset_ne _ _ _ _ (by decide), dget_dupd _ _ _ hov, sigdict_value]
  cases title with
  | none =>
    simp only [Interactor.createFunctionParameter]
    rw [dget_dsetdefault_ne _ _ _ _ (by decide), dget_dsetdefault_self, hmain]
    rfl
  | some t =>
    simp only [Interactor.createFunctionParameter]
    rw [dget_dsetdefault_ne _ _ _ _ (by decide),
      dget_dsetdefault_ne _ _ _ _ (by decide), dget_dsetdefault_self, hmain]
    rfl

theorem createFunctionParameter_type (title : Option String) (name : String)
    (sp : Option SigParam) (ov : PyVal)
    (hov : (dkeys (ovdOf ov)).Nodup) :
    dget (Interactor.createFunctionParameter title name sp ov) "type" =
      some (resolvedTypeFor (ovdOf ov) (sp.bind SigParam.default)) := by
  have hmain : dget (dset (dupd (signatureDictOf sp) (ovdOf ov)) "name"
      (.str name)) "type" = (dget (ovdOf ov) "type").or
        ((sp.bind SigParam.default).map fun d => .str d.typeName) := by
    rw [dget_dset_ne _ _ _ _ (by decide), dget_dupd _ _ _ hov, sigdict_type]
  have hval : dget (dset (dupd (signatureDictOf sp) (ovdOf ov)) "name"
      (.str name)) "value" = (dget (ovdOf ov) "value").or (sp.bind SigParam.default) := by
    rw [dget_dset_ne _ _ _ _ (by decide), dget_dupd _ _ _ hov, sigdict_value]
  cases title with
  | none =>
    simp only [Interactor.createFunctionParameter]
    rw [dget_dsetdefault_self, dget_dsetdefault_ne _ _ _ _ (by decide),
      dget_dsetdefault_self, hmain, hval]
    rfl
  | some t =>
    simp only [Interactor.createFunctionParameter]
    rw [dget_dsetdefault_self, dget_dsetdefault_ne _ _ _ _ (by decide),
      dget_dsetdefault_ne _ _ _ _ (by decide),
      dget_dsetdefault_ne _ _ _ _ (by decide),
      dget_dsetdefault_self, hmain, hval]
    rfl

theorem find?_name_of_nodup (ps : List SigParam)
    (hnd : (ps.map SigParam.name).Nodup) (i : ℕ) (hi : i < ps.length) :
    ps.find? (fun p => p.name == ps[i].name) = some ps[i] := by
  induction ps generalizing i with
  | nil => simp at hi
  | cons q ps ih =>
    simp only [List.map_cons, List.nodup_cons] at hnd
    cases i with
    | zero => simp [List.find?]
    | succ j =>
      have hj : j < ps.length := by simpa using hi
      simp only [List.getElem_cons_succ]
      have hne : (q.name == ps[j].name) = false := by
        apply beq_eq_false_iff_ne.mpr
        intro hc
        exact hnd.1 (hc ▸ List.mem_map_of_mem SigParam.name (ps.getElem_mem hj))
      rw [List.find?_cons, hne]
      exact ih hnd.2 j hj

theorem checkNamesOf_no_kwargs (f : PyFunction)
    (overrides : List (String × PyVal))
    (hkw : ∀ p ∈ f.params, p.kind ≠ ParamKind.varKeyword) :
    Interactor.checkNamesOf f overrides = f.params.map SigParam.name := by
  unfold Interactor.checkNamesOf
  rw [if_neg]
  simp only [List.any_eq_true, beq_iff_eq, not_exists, not_and]
  intro p hp hc
  exact absurd hc (hkw p hp)

theorem overrideDictFor_nodup (overrides : List (String × PyVal))
    (hov : ∀ nm es, dget overrides nm = some (.dict es) → (dkeys es).Nodup)
    (nm : String) : (dkeys (overrideDictFor overrides nm)).Nodup := by
  unfold overrideDictFor
  cases h : dget overrides nm with
  | none => simp [ovdOf, dkeys]
  | some v =>
    cases v with
    | dict es => exact hov nm es (by rw [h])
    | int n => simp [ovdOf, dkeys]
    | str s => simp [ovdOf, dkeys]
    | bool b => simp [ovdOf, dkeys]
    | float q => simp [ovdOf, dkeys]
    | pynone => simp [ovdOf, dkeys]
    | unset => simp [ovdOf, dkeys]

/-- C5: for a function whose signature has no `**kwargs` parameter,
`functionToParameterDict` returns a group dict named after the function with
one child per signature parameter, in signature order; each child's name is
the parameter name regardless of overrides; its value is the override value
when one is supplied, else the signature default, else `PARAM_UNSET`; and
its type is the override type when supplied, else `type(default).__name__`
when there is a default, else the type name of the resolved value. -/
theorem functionToParameterDict_spec (title : Option String) (f : PyFunction)
    (overrides : List (String × PyVal))
    (hkw : ∀ p ∈ f.params, p.kind ≠ ParamKind.varKeyword)
    (hnd : (f.params.map SigParam.name).Nodup)
    (hov : ∀ nm es, dget overrides nm = some (.dict es) → (dkeys es).Nodup) :
    (Interactor.functionToParameterDict title f overrides).name = f.name
    ∧ (Interactor.functionToParameterDict title f overrides).type = "group"
    ∧ (Interactor.functionToParameterDict title f overrides).children.length
        = f.params.length
    ∧ ∀ i, (hi : i < f.params.length) →
        dget ((Interactor.functionToParameterDict title f overrides).children.getD i [])
            "name" = some (.str (f.params[i].name))
        ∧ dget ((Interactor.functionToParameterDict title f overrides).children.getD i [])
            "value" = some (resolvedValueFor
              (overrideDictFor overrides (f.params[i].name)) (f.params[i].default))
        ∧ dget ((Interactor.functionToParameterDict title f overrides).children.getD i [])
            "type" = some (resolvedTypeFor
              (overrideDictFor overrides (f.params[i].name)) (f.params[i].default)) := by
  have hcheck := checkNamesOf_no_kwargs f overrides hkw
  refine ⟨rfl, rfl, ?_, ?_⟩
  · simp [Interactor.functionToParameterDict, hcheck]
  · intro i hi
    have hlen : i < ((Interactor.functionToParameterDict title f overrides).children).length := by
      simp [Interactor.functionToParameterDict, hcheck]
      exact hi
    have hch : (Interactor.functionToParameterDict title f overrides).children.getD i []
        = Interactor.createFunctionParameter title (f.params[i].name)
            (some (f.params[i]))
            ((dget overrides (f.params[i].name)).getD (.dict [])) := by
      rw [List.getD_eq_getElem _ _ hlen]
      simp only [Interactor.functionToParameterDict, Interactor.childFor,
        hcheck, List.getElem_map]
      rw [find?_name_of_nodup f.params hnd i hi]
    rw [hch]
    have hovn := overrideDictFor_nodup overrides hov (f.params[i].name)
    unfold overrideDictFor at hovn
    exact ⟨createFunctionParameter_name _ _ _ _,
      createFunctionParameter_value _ _ _ _ hovn,
      createFunctionParameter_type _ _ _ _ hovn⟩

/-- The example function `f(a, b=5)`. -/
def exampleFunc : PyFunction :=
  ⟨"f", none, [⟨"a", .positionalOrKeyword, none⟩,
    ⟨"b", .positionalOrKeyword, some (.int 5)⟩]⟩

theorem functionToParameterDict_spec_witness :
    dget ((Interactor.functionToParameterDict none exampleFunc
        [("a", .int 3)]).children.getD 0 []) "value" = some (.int 3)
    ∧ dget ((Interactor.functionToParameterDict none exampleFunc
        [("a", .int 3)]).children.getD 1 []) "value" = some (.int 5)
    ∧ dget ((Interactor.functionToParameterDict none exampleFunc
        [("a", .int 3)]).children.getD 1 []) "type" = some (.str "int")
    ∧ dget ((Interactor.functionToParameterDict none exampleFunc
        [("a", .int 3)]).children.getD 0 []) "name" = some (.str "a") := by
  have hov : ∀ nm es, dget [("a", PyVal.int 3)] nm = some (.dict es) →
      (dkeys es).Nodup := by
    intro nm es hc
    by_cases h : nm = "a" <;> simp [dget, h] at hc
  have h := functionToParameterDict_spec none exampleFunc [("a", .int 3)]
    (by decide) (by decide) hov
  obtain ⟨-, -, -, h4⟩ := h
  obtain ⟨h0n, h0v, -⟩ := h4 0 (by decide)
  obtain ⟨-, h1v, h1t⟩ := h4 1 (by decide)
  refine ⟨?_, ?_, ?_, ?_⟩
  · rw [h0v]
    rfl
  · rw [h1v]
    rfl
  · rw [h1t]
    rfl
  · rw [h0n]
    rfl

theorem childFor_name (title : Option String) (f : PyFunction)
    (overrides : List (String × PyVal)) (nm : String) :
    chNameOf (Interactor.childFor title f overrides nm) = nm := by
  unfold chNameOf Interactor.childFor
  rw [createFunctionParameter_name]

theorem childFor_value (title : Option String) (f : PyFunction)
    (overrides : List (String × PyVal)) (nm : String)
    (hov : ∀ nm2 es, dget overrides nm2 = some (.dict es) → (dkeys es).Nodup) :
    chValueOf (Interactor.childFor title f overrides nm) =
      resolvedValueFor (overrideDictFor overrides nm)
        ((f.params.find? fun p => p.name == nm).bind SigParam.default) := by
  have hovn := overrideDictFor_nodup overrides hov nm
  unfold overrideDictFor at hovn
  unfold chValueOf Interactor.childFor
  rw [createFunctionParameter_value _ _ _ _ hovn]
  rfl

theorem isUnset_iff (v : PyVal) : v.isUnset = true ↔ v = .unset := by
  cases v <;> simp [PyVal.isUnset]

theorem childFor_unset (title : Option String) (f : PyFunction)
    (overrides : List (String × PyVal)) (nm : String)
    (hov : ∀ nm2 es, dget overrides nm2 = some (.dict es) → (dkeys es).Nodup)
    (hunset1 : ∀ p ∈ f.params, p.default ≠ some .unset)
    (hunset2 : dget (overrideDictFor overrides nm) "value" ≠ some .unset) :
    (chValueOf (Interactor.childFor title f overrides nm)).isUnset = true ↔
      ((f.params.find? fun p => p.name == nm).bind SigParam.default = none
        ∧ dget (overrideDictFor overrides nm) "value" = none) := by
  rw [childFor_value title f overrides nm hov]
  unfold resolvedValueFor
  rw [isUnset_iff]
  cases hvv : dget (overrideDictFor overrides nm) "value" with
  | some v =>
    rw [show (Option.or (some v)
      ((f.params.find? fun p => p.name == nm).bind SigParam.default)).getD
        PyVal.unset = v from rfl]
    constructor
    · intro hu
      rw [hu] at hvv
      exact absurd hvv hunset2
    · rintro ⟨-, hc⟩
      exact Option.noConfusion hc
  | none =>
    rw [show (Option.or none
      ((f.params.find? fun p => p.name == nm).bind SigParam.default)).getD
        PyVal.unset = ((f.params.find? fun p => p.name == nm).bind
          SigParam.default).getD PyVal.unset from rfl]
    cases hd : (f.params.find? fun p => p.name == nm) with
    | none => simp
    | some p =>
      cases hpd : p.default with
      | none => simp [hpd]
      | some d =>
        have hdne : d ≠ .unset := by
          have hmem := List.mem_of_find?_eq_some hd
          intro hc
          exact hunset1 p hmem (by rw [hpd, hc])
        simp [hpd, hdne]

theorem checkNamesOf_nodup (f : PyFunction)
    (overrides : List (String × PyVal))
    (hnd : (f.params.map SigParam.name).Nodup)
    (hovnd : (dkeys overrides).Nodup) :
    (Interactor.checkNamesOf f overrides).Nodup := by
  unfold Interactor.checkNamesOf
  by_cases hany : f.params.any (fun p => p.kind == ParamKind.varKeyword) = true
  · rw [if_pos hany]
    have hbase : ((f.params.map SigParam.name).eraseIdx
        (f.params.findIdx fun p => p.kind == ParamKind.varKeyword)).Nodup :=
      (List.eraseIdx_sublist _ _).nodup hnd
    apply List.nodup_append.mpr
    refine ⟨hbase, hovnd.filter _, ?_⟩
    intro a ha hb
    have := List.of_mem_filter hb
    exact (of_decide_eq_true this) ha
  · rw [if_neg hany]
    exact hnd

theorem foldl_recycleStep_preserves (children : List (List (String × PyVal)))
    (chNames : List String) (rl : List String)
    (ex : List (String × PyVal)) (nm0 : String)
    (hcond : ∀ n2 ∈ rl, n2 = nm0 →
      (chValueOf (children.getD (chNames.indexOf n2) [])).isUnset = true) :
    dget (rl.foldl (Interactor.recycleStep children chNames) ex) nm0
      = dget ex nm0 := by
  induction rl generalizing ex with
  | nil => rfl
  | cons a rl ih =>
    rw [List.foldl_cons,
      ih _ (fun n2 h2 => hcond n2 (List.mem_cons_of_mem _ h2))]
    by_cases ha : a = nm0
    · subst ha
      have hu := hcond a (List.mem_cons_self _ _) rfl
      simp only [Interactor.recycleStep]
      rw [hu]
      simp
    · simp only [Interactor.recycleStep]
      split
      · rw [dget_dset_ne _ _ _ _ (fun hh => ha hh.symm)]
      · rfl

/-- C8: `Interactor.interact` raises its missing-parameter `ValueError`
exactly when some argument entry of the interaction (a signature parameter
without a default, or an extra override entry of a `**kwargs` function) gets
no value from the overrides, the `InteractiveFunction`'s closures, or its
`extra` keywords; values recycled from ignored children never rescue such an
entry, since only entries that already have values are recycled. -/
theorem interact_missing_iff (title : Option String) (f : PyFunction)
    (closures : List String) (extra : List (String × PyVal))
    (ignores : List String) (overrides : List (String × PyVal))
    (hnd : (f.params.map SigParam.name).Nodup)
    (hovnd : (dkeys overrides).Nodup)
    (hov : ∀ nm es, dget overrides nm = some (.dict es) → (dkeys es).Nodup)
    (hunset1 : ∀ p ∈ f.params, p.default ≠ some .unset)
    (hunset2 : ∀ nm, dget (overrideDictFor overrides nm) "value" ≠ some .unset) :
    Interactor.interactMissing title f closures extra ignores overrides ≠ [] ↔
      ∃ nm ∈ Interactor.checkNamesOf f overrides,
        ((f.params.find? fun p => p.name == nm).bind SigParam.default = none
          ∧ dget (overrideDictFor overrides nm) "value" = none
          ∧ nm ∉ closures
          ∧ dget extra nm = none) := by
  have hchn : List.map chNameOf (List.map (Interactor.childFor title f overrides)
      (Interactor.checkNamesOf f overrides)) = Interactor.checkNamesOf f overrides := by
    rw [List.map_map]
    have hcomp : chNameOf ∘ Interactor.childFor title f overrides = id :=
      funext fun nm => childFor_name title f overrides nm
    rw [hcomp, List.map_id]
  have hgd : ∀ nm ∈ Interactor.checkNamesOf f overrides,
      (List.map (Interactor.childFor title f overrides)
        (Interactor.checkNamesOf f overrides)).getD
          ((Interactor.checkNamesOf f overrides).indexOf nm) []
        = Interactor.childFor title f overrides nm := by
    intro nm hin
    have hidx : (Interactor.checkNamesOf f overrides).indexOf nm
        < (Interactor.checkNamesOf f overrides).length :=
      List.indexOf_lt_length.mpr hin
    rw [List.getD_eq_getElem _ _ (by simpa using hidx), List.getElem_map]
    congr 1
    exact List.getElem_indexOf hidx
  simp only [Interactor.interactMissing, Interactor.functionToParameterDict]
  simp only [hchn]
  rw [ne_eq, List.map_eq_nil_iff, List.filter_eq_nil_iff]
  push_neg
  constructor
  · rintro ⟨ch, hchmem, hpred⟩
    obtain ⟨nm, hnmmem, rfl⟩ := List.mem_map.mp hchmem
    simp only [childFor_name] at hpred
    rw [Bool.and_eq_true, Bool.and_eq_true] at hpred
    obtain ⟨⟨hu, hcl⟩, hex⟩ := hpred
    have hud := (childFor_unset title f overrides nm hov hunset1 (hunset2 nm)).mp hu
    refine ⟨nm, hnmmem, hud.1, hud.2, of_decide_eq_true hcl, ?_⟩
    rw [foldl_recycleStep_preserves] at hex
    · exact Option.isNone_iff_eq_none.mp hex
    · intro n2 h2 he
      subst he
      rw [hgd n2 hnmmem]
      exact hu
  · rintro ⟨nm, hnmmem, h1, h2, h3, h4⟩
    refine ⟨Interactor.childFor title f overrides nm,
      List.mem_map_of_mem _ hnmmem, ?_⟩
    have hu : (chValueOf (Interactor.childFor title f overrides nm)).isUnset = true :=
      (childFor_unset title f overrides nm hov hunset1 (hunset2 nm)).mpr ⟨h1, h2⟩
    simp only [childFor_name]
    rw [Bool.and_eq_true, Bool.and_eq_true]
    refine ⟨⟨hu, decide_eq_true h3⟩, ?_⟩
    rw [foldl_recycleStep_preserves]
    · rw [h4]
      rfl
    · intro n2 h2 he
      subst he
      rw [hgd n2 hnmmem]
      exact hu

theorem interact_missing_iff_witness :
    Interactor.interactMissing none exampleFunc [] [] [] [] ≠ []
    ∧ Interactor.interactMissing none exampleFunc [] [] []
        [("a", .int 3)] = [] := by
  have hov0 : ∀ nm es, dget ([] : List (String × PyVal)) nm = some (.dict es) →
      (dkeys es).Nodup := by
    intro nm es hc
    simp [dget] at hc
  have hunset20 : ∀ nm, dget (overrideDictFor ([] : List (String × PyVal)) nm)
      "value" ≠ some .unset := by
    intro nm
    simp [overrideDictFor, dget, ovdOf]
  have hunset10 : ∀ p ∈ exampleFunc.params, p.default ≠ some PyVal.unset := by
    intro p hp
    simp only [exampleFunc, List.mem_cons, List.not_mem_nil, or_false] at hp
    rcases hp with rfl | rfl <;> simp
  constructor
  · apply (interact_missing_iff none exampleFunc [] [] [] []
      (by decide) (by decide) hov0 hunset10 hunset20).mpr
    refine ⟨"a", by decide, rfl, rfl, by decide, rfl⟩
  · decide

/-- The claim's left cell boundary: the first sample itself for the first
cell, otherwise the midpoint of the two adjacent samples. -/
def cellLeft (x : List ℚ) (i : ℕ) : ℚ :=
  if i = 0 then x.getD 0 0 else (x.getD (i - 1) 0 + x.getD i 0) / 2

/-- The claim's right cell boundary: the last sample itself for the last
cell, otherwise the midpoint of the two adjacent samples. -/
def cellRight (x : List ℚ) (i : ℕ) : ℚ :=
  if i = x.length - 1 then x.getD (x.length - 1) 0
  else (x.getD i 0 + x.getD (i + 1) 0) / 2

theorem getLastD_eq_getD (xs : List ℚ) (x0 : ℚ) :
    xs.getLastD x0 = (x0 :: xs).getD xs.length 0 := by
  induction xs generalizing x0 with
  | nil => rfl
  | cons a as ih =>
    rw [List.getLastD_cons, ih a]
    rfl

theorem pad_length (x0 : ℚ) (xs : List ℚ) :
    (pad (x0 :: xs)).length = xs.length + 3 := by
  simp [pad]

theorem pad_getD_zero (x0 : ℚ) (xs : List ℚ) :
    (pad (x0 :: xs)).getD 0 0 = x0 := by
  rfl

theorem pad_getD_mid (x0 : ℚ) (xs : List ℚ) (j : ℕ) (h1 : 1 ≤ j)
    (h2 : j ≤ xs.length + 1) :
    (pad (x0 :: xs)).getD j 0 = (x0 :: xs).getD (j - 1) 0 := by
  obtain ⟨j2, rfl⟩ : ∃ j2, j = j2 + 1 := ⟨j - 1, by omega⟩
  show ((x0 :: xs) ++ [xs.getLastD x0]).getD j2 0 = _
  rw [List.getD_append _ _ _ _ (by simp; omega)]
  simp

theorem pad_getD_last (x0 : ℚ) (xs : List ℚ) :
    (pad (x0 :: xs)).getD (xs.length + 2) 0 = (x0 :: xs).getD xs.length 0 := by
  show ((x0 :: xs) ++ [xs.getLastD x0]).getD (xs.length + 1) 0 = _
  rw [List.getD_append_right _ _ _ _ (by simp)]
  have h0 : xs.length + 1 - (x0 :: xs).length = 0 := by simp
  rw [h0, List.getD_cons_zero, getLastD_eq_getD]

theorem mids_getD (l : List ℚ) (i : ℕ) (hi : i + 1 < l.length) :
    (mids l).getD i 0 = (l.getD i 0 + l.getD (i + 1) 0) / 2 := by
  have hlen : i < (mids l).length := by
    simp only [mids, List.length_zipWith, List.length_tail]
    omega
  have h1 : i < l.length := by omega
  have h2 : i < l.tail.length := by
    simp only [List.length_tail]
    omega
  rw [List.getD_eq_getElem _ _ hlen, List.getD_eq_getElem _ _ h1,
    List.getD_eq_getElem _ _ hi]
  show (List.zipWith (fun a b => (a + b) / 2) l l.tail)[i] = _
  rw [List.getElem_zipWith, List.getElem_tail]

theorem bounds_getD_left (x0 : ℚ) (xs : List ℚ) (i : ℕ)
    (hi : i < (x0 :: xs).length) :
    (bounds (x0 :: xs)).getD i 0 = cellLeft (x0 :: xs) i := by
  have hlen : i + 1 < (pad (x0 :: xs)).length := by
    rw [pad_length]
    simp at hi
    omega
  unfold bounds
  rw [mids_getD _ _ hlen]
  cases i with
  | zero =>
    rw [pad_getD_zero, pad_getD_mid x0 xs 1 le_rfl (by omega)]
    simp [cellLeft, add_self_div_two]
  | succ i2 =>
    simp only [List.length_cons] at hi
    rw [pad_getD_mid x0 xs (i2 + 1) (by omega) (by omega),
      pad_getD_mid x0 xs (i2 + 2) (by omega) (by omega)]
    simp [cellLeft]

theorem bounds_getD_right (x0 : ℚ) (xs : List ℚ) (i : ℕ)
    (hi : i < (x0 :: xs).length) :
    (bounds (x0 :: xs)).getD (i + 1) 0 = cellRight (x0 :: xs) i := by
  simp only [List.length_cons] at hi
  by_cases hlast : i = xs.length
  · subst hlast
    have hlen : xs.length + 1 + 1 < (pad (x0 :: xs)).length := by
      rw [pad_length]
      omega
    unfold bounds
    rw [mids_getD _ _ hlen]
    rw [pad_getD_mid x0 xs (xs.length + 1) (by omega) (by omega), pad_getD_last]
    simp only [Nat.add_sub_cancel]
    unfold cellRight
    rw [if_pos (by simp)]
    simp [add_self_div_two]
  · have hlen : i + 1 + 1 < (pad (x0 :: xs)).length := by
      rw [pad_length]
      omega
    unfold bounds
    rw [mids_getD _ _ hlen]
    rw [pad_getD_mid x0 xs (i + 1) (by omega) (by omega),
      pad_getD_mid x0 xs (i + 2) (by omega) (by omega)]
    simp only [Nat.add_sub_cancel]
    unfold cellRight
    rw [if_neg (by simp; omega)]
    simp

theorem rectOf_spec (x y : List ℚ) (i j : ℕ) (hi : i < x.length)
    (hj : j < y.length) :
    rectOf x y (i * y.length + j) =
      (cellLeft x i, cellLeft y j, cellRight x i - cellLeft x i,
        cellRight y j - cellLeft y j) := by
  have hx : x ≠ [] := by
    intro hc
    rw [hc] at hi
    simp at hi
  have hy : y ≠ [] := by
    intro hc
    rw [hc] at hj
    simp at hj
  obtain ⟨x0, xs, rfl⟩ := List.exists_cons_of_ne_nil hx
  obtain ⟨y0, ys, rfl⟩ := List.exists_cons_of_ne_nil hy
  have hm : 0 < (y0 :: ys).length := by simp
  have hdiv : (i * (y0 :: ys).length + j) / (y0 :: ys).length = i := by
    rw [mul_comm, Nat.mul_add_div hm, Nat.div_eq_of_lt hj, Nat.add_zero]
  have hmod : (i * (y0 :: ys).length + j) % (y0 :: ys).length = j := by
    rw [mul_comm, Nat.mul_add_mod, Nat.mod_eq_of_lt hj]
  simp only [rectOf]
  rw [hdiv, hmod, bounds_getD_left x0 xs i hi, bounds_getD_right x0 xs i hi,
    bounds_getD_left y0 ys j hj, bounds_getD_right y0 ys j hj]

theorem cellColorIndex_le (L : ℕ) (hL : 1 ≤ L) (mn mx : ℚ) (z : Option ℚ) :
    cellColorIndex L mn mx z ≤ L := by
  cases z with
  | none => simp [cellColorIndex]
  | some v =>
    have hb := clipZ_le (pyTrunc ((v - mn) *
      ((L : ℚ) / (if mx - mn = 0 then 1 else mx - mn)))) 0 ((L : ℤ) - 1)
      (by omega)
    simp only [cellColorIndex, rescaleData]
    omega

theorem cellColorIndex_eq_L_iff (L : ℕ) (hL : 1 ≤ L) (mn mx : ℚ)
    (z : Option ℚ) : cellColorIndex L mn mx z = L ↔ z = none := by
  cases z with
  | none => simp [cellColorIndex]
  | some v =>
    have hb := clipZ_le (pyTrunc ((v - mn) *
      ((L : ℚ) / (if mx - mn = 0 then 1 else mx - mn)))) 0 ((L : ℤ) - 1)
      (by omega)
    simp only [cellColorIndex, rescaleData]
    constructor
    · intro hc
      omega
    · intro hc
      exact Option.noConfusion hc

theorem count_in_groups (cs : List ℕ) (hnd : cs.Nodup) (N : ℕ)
    (color : ℕ → ℕ) (k : ℕ) :
    ((cs.map fun c => (List.range N).filter fun k2 => color k2 == c).flatten).count k
      = if k < N ∧ color k ∈ cs then 1 else 0 := by
  induction cs with
  | nil => simp
  | cons c cs ih =>
    simp only [List.nodup_cons] at hnd
    rw [List.map_cons, List.flatten_cons, List.count_append, ih hnd.2]
    have hA : ((List.range N).filter fun k2 => color k2 == c).count k
        = if k < N ∧ color k = c then 1 else 0 := by
      by_cases hmem : k ∈ (List.range N).filter fun k2 => color k2 == c
      · rw [List.count_eq_one_of_mem ((List.nodup_range N).filter _) hmem]
        have hk := List.mem_filter.mp hmem
        rw [if_pos ⟨List.mem_range.mp hk.1, by simpa using hk.2⟩]
      · rw [List.count_eq_zero_of_not_mem hmem, if_neg]
        rintro ⟨h1, h2⟩
        exact hmem (List.mem_filter.mpr
          ⟨List.mem_range.mpr h1, by simpa using h2⟩)
    rw [hA]
    by_cases hc : color k = c
    · have hnotin : color k ∉ cs := by
        rw [hc]
        exact hnd.1
      by_cases hN : k < N
      · simp [hc, hN, hnotin, List.mem_cons, hnd.1]
      · simp [hc, hN]
    · by_cases hN : k < N <;> simp [hc, hN, List.mem_cons]

theorem filter_filter_range_nodup (n : ℕ) (p q : ℕ → Bool) :
    (((List.range n).filter p).filter q).Nodup :=
  ((List.nodup_range n).filter p).filter q

theorem count_in_drawcalls (cs : List ℕ) (hnd : cs.Nodup) (N : ℕ)
    (color : ℕ → ℕ) (mk : ℕ → DrawCall)
    (hmk : ∀ c, (mk c).indices = (List.range N).filter fun k2 => color k2 == c)
    (k : ℕ) :
    (((cs.map mk).map DrawCall.indices).flatten).count k
      = if k < N ∧ color k ∈ cs then 1 else 0 := by
  rw [List.map_map]
  have hcomp : (DrawCall.indices ∘ mk)
      = fun c => (List.range N).filter fun k2 => color k2 == c := funext hmk
  rw [hcomp, count_in_groups cs hnd N color k]

theorem map_coloridx_nodup (cs : List ℕ) (hnd : cs.Nodup) (mk : ℕ → DrawCall)
    (hmk : ∀ c, (mk c).coloridx = c) :
    ((cs.map mk).map DrawCall.coloridx).Nodup := by
  rw [List.map_map]
  have hcomp : (DrawCall.coloridx ∘ mk) = id := funext hmk
  rw [hcomp, List.map_id]
  exact hnd

theorem gpc_base_mem (L N : ℕ) (mn mx : ℚ) (zflat : List (Option ℚ))
    (hL : 1 ≤ L) (c : ℕ) :
    c ∈ (((List.range (L + 1)).filter fun c2 =>
        decide (c2 ∈ (List.range N).map (colorIdxAt L mn mx zflat))).filter
          fun c2 => c2 != L)
      ↔ (∃ k < N, colorIdxAt L mn mx zflat k = c) ∧ c ≠ L := by
  rw [List.mem_filter, List.mem_filter, List.mem_range]
  constructor
  · rintro ⟨⟨hrange, hmemc⟩, hne⟩
    obtain ⟨k, hk, hck⟩ := List.mem_map.mp (of_decide_eq_true hmemc)
    exact ⟨⟨k, List.mem_range.mp hk, hck⟩, by simpa using hne⟩
  · rintro ⟨⟨k, hk, hck⟩, hne⟩
    refine ⟨⟨?_, decide_eq_true ?_⟩, by simpa using hne⟩
    · rw [← hck]
      have hle := cellColorIndex_le L hL mn mx (zflat.getD k none)
      unfold colorIdxAt
      omega
    · exact List.mem_map.mpr ⟨k, List.mem_range.mpr hk, hck⟩

/-- C2: `generatePicture` paints exactly one rectangle per non-NaN grid
cell and none for NaN cells; the rectangle of cell `(i, j)` spans from the
midpoint of `x[i-1], x[i]` to the midpoint of `x[i], x[i+1]` (the outermost
samples themselves bounding the first and last cells, via edge padding),
and analogously in `y`; and the rectangles are emitted grouped by quantized
color index, each occurring index drawn in a single batched `drawRects`
call with that index's lookup-table color. -/
theorem generatePicture_drawcalls_spec (x y : List ℚ)
    (zflat : List (Option ℚ)) (lut : List ℤ) (mn mx : ℚ)
    (hL : 1 ≤ lut.length)
    (hz : zflat.length = x.length * y.length) :
    (∀ k, k < x.length * y.length →
      (((generatePictureCalls x y zflat lut mn mx).map
          DrawCall.indices).flatten).count k
        = if zflat.getD k none ≠ none then 1 else 0)
    ∧ (∀ i j, i < x.length → j < y.length →
        rectOf x y (i * y.length + j) =
          (cellLeft x i, cellLeft y j, cellRight x i - cellLeft x i,
            cellRight y j - cellLeft y j))
    ∧ (∀ dc ∈ generatePictureCalls x y zflat lut mn mx,
        dc.rects = dc.indices.map (rectOf x y)
        ∧ dc.brush = lut.getD dc.coloridx 0
        ∧ dc.coloridx < lut.length
        ∧ (∀ k, k ∈ dc.indices ↔
            (k < x.length * y.length
              ∧ colorIdxAt lut.length mn mx zflat k = dc.coloridx
              ∧ zflat.getD k none ≠ none)))
    ∧ ((generatePictureCalls x y zflat lut mn mx).map
        DrawCall.coloridx).Nodup := by
  refine ⟨?_, ?_, ?_, ?_⟩
  · intro k hk
    simp only [generatePictureCalls]
    rw [count_in_drawcalls _ (filter_filter_range_nodup _ _ _) _
      (colorIdxAt lut.length mn mx zflat) _ (fun c => rfl) k]
    by_cases hnn : zflat.getD k none = none
    · rw [if_neg (not_not_intro hnn), if_neg]
      rintro ⟨-, hmem⟩
      have h2 := (gpc_base_mem lut.length (x.length * y.length) mn mx zflat
        hL _).mp hmem
      exact h2.2 ((cellColorIndex_eq_L_iff lut.length hL mn mx _).mpr hnn)
    · rw [if_pos hnn, if_pos]
      refine ⟨hk, ?_⟩
      apply (gpc_base_mem lut.length (x.length * y.length) mn mx zflat hL _).mpr
      refine ⟨⟨k, hk, rfl⟩, ?_⟩
      intro hc
      exact hnn ((cellColorIndex_eq_L_iff lut.length hL mn mx _).mp hc)
  · intro i j hi hj
    exact rectOf_spec x y i j hi hj
  · intro dc hdc
    simp only [generatePictureCalls] at hdc
    obtain ⟨c, hc, rfl⟩ := List.mem_map.mp hdc
    have hcprop := (gpc_base_mem lut.length (x.length * y.length) mn mx zflat
      hL c).mp hc
    obtain ⟨⟨k0, hk0, hck0⟩, hcneL⟩ := hcprop
    have hcltL : c < lut.length := by
      have hle := cellColorIndex_le lut.length hL mn mx (zflat.getD k0 none)
      unfold colorIdxAt at hck0
      omega
    refine ⟨rfl, rfl, hcltL, ?_⟩
    intro k
    show k ∈ (List.range (x.length * y.length)).filter
      (fun k2 => colorIdxAt lut.length mn mx zflat k2 == c) ↔ _
    rw [List.mem_filter, List.mem_range]
    constructor
    · rintro ⟨h1, h2⟩
      have h3 : colorIdxAt lut.length mn mx zflat k = c := by simpa using h2
      refine ⟨h1, h3, ?_⟩
      intro hcon
      apply hcneL
      rw [← h3]
      exact (cellColorIndex_eq_L_iff lut.length hL mn mx _).mpr hcon
    · rintro ⟨h1, h2, -⟩
      exact ⟨h1, by simpa using h2⟩
  · simp only [generatePictureCalls]
    exact map_coloridx_nodup _ (filter_filter_range_nodup _ _ _) _ fun c => rfl

theorem generatePicture_drawcalls_spec_witness :
    (((generatePictureCalls [1, 2, 4] [0, 1]
        [some 0, some 1, some 2, none, some 2, some 2]
        [10, 20, 30, 40] 0 2).map DrawCall.indices).flatten).count 3 = 0
    ∧ (((generatePictureCalls [1, 2, 4] [0, 1]
        [some 0, some 1, some 2, none, some 2, some 2]
        [10, 20, 30, 40] 0 2).map DrawCall.indices).flatten).count 0 = 1
    ∧ rectOf [1, 2, 4] [0, 1] 2 =
        (cellLeft [1, 2, 4] 1, cellLeft [0, 1] 0,
          cellRight [1, 2, 4] 1 - cellLeft [1, 2, 4] 1,
          cellRight [0, 1] 0 - cellLeft [0, 1] 0) := by
  have h := generatePicture_drawcalls_spec [1, 2, 4] [0, 1]
    [some 0, some 1, some 2, none, some 2, some 2]
    [10, 20, 30, 40] 0 2 (by norm_num) (by norm_num)
  refine ⟨?_, ?_, ?_⟩
  · have h3 := h.1 3 (by norm_num)
    rw [h3]
    simp
  · have h0 := h.1 0 (by norm_num)
    rw [h0]
    simp
  · have hr := h.2.1 1 0 (by norm_num) (by norm_num)
    simpa using hr
